import Mathlib

/-!
# Verification of the stream_json scanner and writer

Shallow embedding of the two engines of the `stream_json` repository:

* the incremental key/value scanner of `src/stream_json_parse.c`
  (`find_key_value_pair`, `shift_parse_buffer_by_key_value`, and helpers), and
* the streaming JSON writer of `src/stream_json_write.c`
  (`sjson_InitObject`, the `sjson_Add*` family, `sjson_Close`, `sjson_End`,
  `sjson_Flush`).

Bytes are modeled as `Nat` (their ASCII codes) and C byte buffers / strings as
`List Nat`.  C `int` counters that can go negative (`bracket_depth`,
`brace_depth`, `value_start`, `value_len`) are modeled as `Int`.  Pointer
NULL-argument checks of the C code are not representable in the embedding and
are omitted; every other branch of the C control flow is reproduced.
-/

namespace StreamJson

/-! ## Scanner: data model (`json_parse_state_t` of `stream_json_parse.h`)

The scalar fields of `json_parse_state_t` are grouped in `ScanVars`; the pair
`parse_buffer` / `parse_buffer_len` is modeled as the list `parseBuffer`
(`parse_buffer_capacity` plays no role in the scanning code and is not
modeled).  `key_buffer` is a fixed 64-byte array in C of which only the first
`key_pos` bytes are meaningful (a NUL terminator is written at `key_pos` when
a key completes); we model it as the list of bytes written so far, and the
key read out by a caller is `keyBuffer.take keyPos`. -/

/-- `parse_state_enum_t`. -/
inductive PState where
  | seekingKey
  | inKey
  | seekingColon
  | seekingValue
  | inValue
deriving DecidableEq

/-- The scalar fields of `json_parse_state_t` that the scan loop mutates. -/
structure ScanVars where
  state : PState
  keyBuffer : List Nat
  keyPos : Nat
  bracketDepth : Int
  braceDepth : Int
  inQuotes : Bool
  escapeNext : Bool
  valueStart : Int
  valueLen : Int
deriving DecidableEq

/-- `json_parse_state_t`: the scan variables together with the parse buffer. -/
structure JsonParseState where
  vars : ScanVars
  parseBuffer : List Nat
deriving DecidableEq

/-- `is_whitespace` of `stream_json_parse.c`. -/
def isWhitespace (c : Nat) : Bool :=
  c == 32 || c == 9 || c == 10 || c == 13

/-- `reset_value_tracking_for_parse_state`: resets every scan variable except
the contents of `key_buffer` (C resets `key_pos` but leaves the array bytes). -/
def resetValueTracking (v : ScanVars) : ScanVars :=
  { state := .seekingKey
    keyBuffer := v.keyBuffer
    keyPos := 0
    bracketDepth := 0
    braceDepth := 0
    inQuotes := false
    escapeNext := false
    valueStart := 0
    valueLen := 0 }

/-- `reset_json_parse_state`: reset value tracking, empty the buffer, and zero
`key_buffer` (C `memset`s the whole array). -/
def resetJsonParseState (st : JsonParseState) : JsonParseState :=
  { vars := { resetValueTracking st.vars with keyBuffer := [] }
    parseBuffer := [] }

/-- `check_remaining_buffer`: 1 if every remaining buffered byte is whitespace,
0 otherwise. -/
def checkRemainingBuffer (st : JsonParseState) : Int :=
  if st.parseBuffer.all isWhitespace then 1 else 0

/-- The fresh, fully reset scanner state (`reset_json_parse_state` applied to
anything, with an empty buffer). -/
def freshScanState : JsonParseState :=
  { vars := { state := .seekingKey, keyBuffer := [], keyPos := 0,
              bracketDepth := 0, braceDepth := 0, inQuotes := false,
              escapeNext := false, valueStart := 0, valueLen := 0 }
    parseBuffer := [] }

/-! ## Scanner: the scan loop

One iteration of the `for` loop of `find_key_value_pair` either continues
with updated scan variables, returns 1 (a complete pair found), handles the
closing `}` of the object (which shifts the buffer to just after the `}` and
returns 0 or -1 depending on whether only whitespace remains), or resets the
whole state and returns -1 on a syntax error.  The loop body never reads or
writes `parse_buffer` except through the current character, so the step is a
function of the scan variables, the current character `c`, and its index `i`. -/

/-- Outcome of one iteration of the scan loop. -/
inductive StepOut where
  | cont (v : ScanVars)
  | found (v : ScanVars)
  | completeBrace
  | errReset
deriving DecidableEq

/-- The body of the `PARSE_STATE_IN_VALUE` case of the scan loop after the
quote toggle: while inside a string everything is inert; otherwise a `,` or
`}` at balanced depths completes the value, and brackets/braces adjust the
depth counters. -/
def scanStepInValue (v1 : ScanVars) (c : Nat) (i : Nat) : StepOut :=
  if v1.inQuotes then
    .cont v1
  else if v1.braceDepth == 0 && v1.bracketDepth == 0 && (c == 44 || c == 125) then
    .found { v1 with valueLen := (i : Int) - v1.valueStart }
  else if c == 123 then .cont { v1 with braceDepth := v1.braceDepth + 1 }
  else if c == 125 then .cont { v1 with braceDepth := v1.braceDepth - 1 }
  else if c == 91 then .cont { v1 with bracketDepth := v1.bracketDepth + 1 }
  else if c == 93 then .cont { v1 with bracketDepth := v1.bracketDepth - 1 }
  else .cont v1

/-- The body of the `for` loop of `find_key_value_pair`, for character `c` at
index `i`.  Mirrors the C branch structure:
escape skip, escape arming, then the `switch` on the phase. -/
def scanStep (v : ScanVars) (c : Nat) (i : Nat) : StepOut :=
  if v.escapeNext then
    .cont { v with escapeNext := false }
  else if c == 92 && v.inQuotes then
    .cont { v with escapeNext := true }
  else
    match v.state with
    | .seekingKey =>
        if c == 34 then
          .cont { v with state := .inKey }
        else if c == 125 then
          .completeBrace
        else if !isWhitespace c && c != 123 then
          .errReset
        else
          .cont v
    | .inKey =>
        if c == 34 then
          -- C writes the NUL terminator `key_buffer[key_pos] = 0` here;
          -- the readable key is `keyBuffer.take keyPos`.
          .cont { v with state := .seekingColon }
        else if v.keyPos < 63 then
          -- `key_pos < sizeof(key_buffer) - 1`
          .cont { v with keyBuffer := v.keyBuffer.take v.keyPos ++ [c],
                         keyPos := v.keyPos + 1 }
        else
          -- key buffer overflow: logged, byte dropped, scan continues
          .cont v
    | .seekingColon =>
        if c == 58 then
          .cont { v with state := .seekingValue }
        else if isWhitespace c then
          .cont v
        else
          .errReset
    | .seekingValue =>
        if isWhitespace c then
          .cont v
        else if c == 34 then
          .cont { v with state := .inValue, valueStart := (i : Int), inQuotes := true }
        else if c == 123 then
          .cont { v with state := .inValue, valueStart := (i : Int), braceDepth := 1 }
        else if c == 91 then
          .cont { v with state := .inValue, valueStart := (i : Int), bracketDepth := 1 }
        else
          .cont { v with state := .inValue, valueStart := (i : Int) }
    | .inValue =>
        -- `if (c == '"' && !p_state->escape_next)`: `escape_next` is always
        -- false at this point (the escape branch at the loop top consumed
        -- it), but the C test is reproduced verbatim.  The quote toggle is
        -- applied first; `scanStepInValue` is the rest of the case body.
        if c == 34 && !v.escapeNext then
          scanStepInValue { v with inQuotes := !v.inQuotes } c i
        else
          scanStepInValue v c i

/-- How a call of `find_key_value_pair` ended.  The C function collapses this
to an `int` (`ScanExit.code`); the tag records which exit path was taken. -/
inductive ScanExit where
  | found        -- return 1: complete pair located
  | exhausted    -- fell off the end of the loop: return 0 (need more input)
  | completeOk   -- `}` while seeking key, remainder all whitespace: return 0
  | completeBad  -- `}` while seeking key, garbage remains: return -1
  | errReset     -- syntax error inside the loop: return -1
  | errEntry     -- entry-state check failed: return -1
deriving DecidableEq

/-- The `int` actually returned by `find_key_value_pair` for each exit. -/
def ScanExit.code : ScanExit → Int
  | .found => 1
  | .exhausted => 0
  | .completeOk => 0
  | .completeBad => -1
  | .errReset => -1
  | .errEntry => -1

/-- The scan loop of `find_key_value_pair` over the remaining suffix of the
buffer, with `i` the index of the suffix head in the full buffer and `buf`
the full buffer (returned unchanged on the `found` / `exhausted` exits).
In the `completeBrace` case the C code calls `shift_buffer_by_len(i + 1)`:
since the suffix head sits at index `i`, the shifted buffer is exactly the
tail `rest` of the suffix; `shift_buffer_by_len` also resets value tracking. -/
def scanLoopX (buf : List Nat) : ScanVars → List Nat → Nat →
    ScanExit × JsonParseState
  | v, [], _ => (.exhausted, ⟨v, buf⟩)
  | v, c :: rest, i =>
    match scanStep v c i with
    | .cont v1 => scanLoopX buf v1 rest (i + 1)
    | .found v1 => (.found, ⟨v1, buf⟩)
    | .completeBrace =>
        let st : JsonParseState := ⟨resetValueTracking v, rest⟩
        if checkRemainingBuffer st == 1 then (.completeOk, st)
        else (.completeBad, st)
    | .errReset => (.errReset, resetJsonParseState ⟨v, buf⟩)

/-- `find_key_value_pair`, instrumented with the exit tag.  The C entry check
is `if (!p_state->state == PARSE_STATE_SEEKING_KEY) return -1`: because `!`
binds tighter than `==` and `PARSE_STATE_SEEKING_KEY` is the enum value 0,
this is equivalent to `state != PARSE_STATE_SEEKING_KEY`. -/
def findKeyValuePairX (st : JsonParseState) : ScanExit × JsonParseState :=
  if st.vars.state ≠ PState.seekingKey then (.errEntry, st)
  else scanLoopX st.parseBuffer st.vars st.parseBuffer 0

/-- `find_key_value_pair` as the C function: result `int` and mutated state. -/
def findKeyValuePair (st : JsonParseState) : Int × JsonParseState :=
  ((findKeyValuePairX st).1.code, (findKeyValuePairX st).2)

/-- `shift_buffer_by_len`: drop `shiftLen` bytes from the front of the parse
buffer and reset value tracking.  (In every reachable call `shiftLen` is
between 1 and the buffer length; the C `memmove`/length bookkeeping then
coincides with `List.drop`.) -/
def shiftBufferByLen (st : JsonParseState) (shiftLen : Int) : JsonParseState :=
  { vars := resetValueTracking st.vars
    parseBuffer := st.parseBuffer.drop shiftLen.toNat }

/-- `shift_parse_buffer_by_key_value`: consume a found pair, i.e. shift the
buffer past `value_start + value_len + 1` bytes (the `+1` eats the trailing
delimiter).  The guard mirrors the C argument check (which logs and leaves
the state untouched). -/
def shiftParseBufferByKeyValue (st : JsonParseState) : JsonParseState :=
  if st.parseBuffer.length == 0 || st.vars.valueLen ≤ 0 then st
  else shiftBufferByLen st (st.vars.valueStart + st.vars.valueLen + 1)

/-- The key/value pair a caller reads out of the state after a `found`
result: the key accumulated in `key_buffer` and the raw value span
`parse_buffer[value_start .. value_start + value_len)`. -/
def readPair (st : JsonParseState) : List Nat × List Nat :=
  (st.vars.keyBuffer.take st.vars.keyPos,
   (st.parseBuffer.drop st.vars.valueStart.toNat).take st.vars.valueLen.toNat)

/-- Reset value tracking without touching the buffer: this is the
"rescan from the top" preparation the scanner's entry check demands (the scan
is only restartable from the start of the unconsumed buffer). -/
def resetScan (st : JsonParseState) : JsonParseState :=
  ⟨resetValueTracking st.vars, st.parseBuffer⟩

/-! ## Scanner: structural lemmas about the scan loop -/

/-- The invariant the scan loop maintains about `value_start`: while the
phase is `InValue`, `value_start` was set at an earlier index of this scan. -/
def InValueInv (v : ScanVars) (i : Nat) : Prop :=
  v.state = PState.inValue → 0 ≤ v.valueStart ∧ v.valueStart < (i : Int)

/-- A continuing `IN_VALUE` step changes neither the phase nor
`value_start`. -/
theorem scanStepInValue_cont_fields {v v1 : ScanVars} {c i : Nat}
    (h : scanStepInValue v c i = StepOut.cont v1) :
    v1.state = v.state ∧ v1.valueStart = v.valueStart ∧
    v1.keyPos = v.keyPos ∧ v1.keyBuffer = v.keyBuffer := by
  unfold scanStepInValue at h
  repeat' split at h
  all_goals cases h
  all_goals simp_all

/-- A `found` step keeps `value_start` and sets
`value_len = i - value_start`. -/
theorem scanStepInValue_found_spec {v v1 : ScanVars} {c i : Nat}
    (h : scanStepInValue v c i = StepOut.found v1) :
    v1.valueStart = v.valueStart ∧ v1.valueLen = (i : Int) - v.valueStart := by
  unfold scanStepInValue at h
  repeat' split at h
  all_goals cases h
  all_goals simp_all

/-- A continuing step preserves `InValueInv` at the next index. -/
theorem scanStep_cont_inv {v v1 : ScanVars} {c i : Nat}
    (hv : InValueInv v i) (h : scanStep v c i = StepOut.cont v1) :
    InValueInv v1 (i + 1) := by
  unfold InValueInv at hv ⊢
  unfold scanStep at h
  repeat' split at h
  all_goals try (cases h)
  all_goals first
    | (have hf := scanStepInValue_cont_fields h
       intro hs
       rw [hf.1] at hs
       rw [hf.2.1]
       try dsimp only at hs ⊢
       first
         | (have h2 := hv hs; omega)
         | omega)
    | (intro hs
       try dsimp only at hs ⊢
       first
         | (have h2 := hv hs; omega)
         | omega
         | (cases hs))

/-- A `found` step happens in the `InValue` phase and records the span end. -/
theorem scanStep_found_spec {v v1 : ScanVars} {c i : Nat}
    (h : scanStep v c i = StepOut.found v1) :
    v.state = PState.inValue ∧ v1.valueStart = v.valueStart ∧
    v1.valueLen = (i : Int) - v.valueStart := by
  unfold scanStep at h
  repeat' split at h
  all_goals try (cases h)
  all_goals
    (rename_i hst _
     have hf := scanStepInValue_found_spec h
     try dsimp only at hf
     exact ⟨hst, hf.1, hf.2⟩)

/-- A scan that finds a pair leaves the buffer untouched and reports a value
span that lies, together with its trailing delimiter, inside the scanned
bytes. -/
theorem scanLoopX_found_bounds :
    ∀ (l : List Nat) (v : ScanVars) (i : Nat) (buf : List Nat)
      (st : JsonParseState),
      scanLoopX buf v l i = (ScanExit.found, st) → InValueInv v i →
      st.parseBuffer = buf ∧ 0 ≤ st.vars.valueStart ∧ 1 ≤ st.vars.valueLen ∧
      st.vars.valueStart + st.vars.valueLen + 1 ≤ (i : Int) + l.length := by
  intro l
  induction l with
  | nil =>
      intro v i buf st h hv
      rw [scanLoopX] at h
      simp at h
  | cons c rest ih =>
      intro v i buf st h hv
      rw [scanLoopX] at h
      cases hstep : scanStep v c i with
      | cont v1 =>
          rw [hstep] at h
          have hres := ih v1 (i + 1) buf st h (scanStep_cont_inv hv hstep)
          refine ⟨hres.1, hres.2.1, hres.2.2.1, ?_⟩
          have hb := hres.2.2.2
          simp only [List.length_cons]
          push_cast at hb ⊢
          omega
      | found v1 =>
          rw [hstep] at h
          simp only [Prod.mk.injEq] at h
          obtain ⟨-, h2⟩ := h
          subst h2
          have hspec := scanStep_found_spec hstep
          have hbd := hv hspec.1
          refine ⟨rfl, ?_, ?_, ?_⟩ <;>
            (simp only [hspec.2.1, hspec.2.2, List.length_cons]
             push_cast
             omega)
      | completeBrace =>
          rw [hstep] at h
          dsimp only at h
          split at h <;> simp at h
      | errReset =>
          rw [hstep] at h
          simp at h

/-- A scan that exhausts the buffer returns it untouched. -/
theorem scanLoopX_exhausted_buffer :
    ∀ (l : List Nat) (v : ScanVars) (i : Nat) (buf : List Nat)
      (st : JsonParseState),
      scanLoopX buf v l i = (ScanExit.exhausted, st) → st.parseBuffer = buf := by
  intro l
  induction l with
  | nil =>
      intro v i buf st h
      rw [scanLoopX] at h
      simp only [Prod.mk.injEq] at h
      rw [← h.2]
  | cons c rest ih =>
      intro v i buf st h
      rw [scanLoopX] at h
      cases hstep : scanStep v c i with
      | cont v1 => rw [hstep] at h; exact ih v1 (i + 1) buf st h
      | found v1 => rw [hstep] at h; simp at h
      | completeBrace =>
          rw [hstep] at h
          dsimp only at h
          split at h <;> simp at h
      | errReset => rw [hstep] at h; simp at h

/-- `find_key_value_pair` reporting 1 leaves the buffer untouched and the
value span (plus delimiter) inside it. -/
theorem findKeyValuePairX_found_bounds {st s : JsonParseState}
    (h : findKeyValuePairX st = (ScanExit.found, s)) :
    s.parseBuffer = st.parseBuffer ∧ 0 ≤ s.vars.valueStart ∧
    1 ≤ s.vars.valueLen ∧
    s.vars.valueStart + s.vars.valueLen + 1 ≤ (st.parseBuffer.length : Int) := by
  unfold findKeyValuePairX at h
  split at h
  · simp at h
  · next hstate =>
      have hinv : InValueInv st.vars 0 := by
        intro hs
        simp only [not_not] at hstate
        rw [hs] at hstate
        exact absurd hstate (by simp)
      have hres := scanLoopX_found_bounds st.parseBuffer st.vars 0
        st.parseBuffer s h hinv
      exact ⟨hres.1, hres.2.1, hres.2.2.1, by have := hres.2.2.2; omega⟩

/-- Consuming a found pair strictly shrinks the buffer. -/
theorem consume_shrinks {st s : JsonParseState}
    (h : findKeyValuePairX st = (ScanExit.found, s)) :
    (shiftParseBufferByKeyValue s).parseBuffer.length < st.parseBuffer.length := by
  have hb := findKeyValuePairX_found_bounds h
  unfold shiftParseBufferByKeyValue shiftBufferByLen
  have hlen : s.parseBuffer.length = st.parseBuffer.length := by rw [hb.1]
  split
  · next hguard =>
      simp only [Bool.or_eq_true, beq_iff_eq, decide_eq_true_eq] at hguard
      rcases hguard with hg | hg
      · omega
      · omega
  · simp only [List.length_drop]
    omega

/-! ## Scanner: driver loops

The claims describe a caller that repeatedly invokes the scan operation and,
on each found result (`find_key_value_pair` returning 1, i.e.
`ScanExit.found`), the consume operation, until the scan stops yielding
pairs.  `drainGo` runs that loop; the fuel argument (always instantiated
through `scanConsume` with `parseBuffer.length + 1`) bounds the number of
found results, which suffices because every consume removes at least one
buffered byte (`consume_shrinks`); the `none` exit of fuel exhaustion is
unreachable under that instantiation. -/

/-- Scan/consume to quiescence, resetting value tracking before every scan
("rescan from the top", which the scanner's entry-state check requires
after a partial scan).  Returns the pairs read out, the final state, and
the exit of the last scan. -/
def drainGo : Nat → JsonParseState →
    List (List Nat × List Nat) × JsonParseState × Option ScanExit
  | 0, st => ([], st, none)
  | fuel + 1, st =>
      let r := findKeyValuePairX (resetScan st)
      if r.1 = ScanExit.found then
        let rest := drainGo fuel (shiftParseBufferByKeyValue r.2)
        (readPair r.2 :: rest.1, rest.2)
      else ([], r.2, some r.1)

/-- One quiescence round of the reset-then-scan/consume protocol. -/
def scanConsume (st : JsonParseState) :
    List (List Nat × List Nat) × JsonParseState × Option ScanExit :=
  drainGo (st.parseBuffer.length + 1) st

/-- The `int` a driver checking `find_key_value_pair`'s return value sees
for a drain exit (`-2` for the unreachable fuel exhaustion). -/
def exitCode : Option ScanExit → Int
  | some e => e.code
  | none => -2

/-- Feed the input chunk by chunk; after each append run the scan/consume
loop to quiescence.  The boolean records whether any scan returned a
nonzero, non-1 code (the claim's "SyntaxError reported"). -/
def feedChunks : JsonParseState → List (List Nat) →
    List (List Nat × List Nat) × JsonParseState × Bool
  | st, [] => ([], st, false)
  | st, c :: rest =>
      let r := scanConsume ⟨st.vars, st.parseBuffer ++ c⟩
      if exitCode r.2.2 ≠ 0 then (r.1, r.2.1, true)
      else
        let r2 := feedChunks r.2.1 rest
        (r.1 ++ r2.1, r2.2.1, r2.2.2)

/-- Scan/consume to quiescence exactly as claim C1 words it: only
`find_key_value_pair` and `shift_parse_buffer_by_key_value` are invoked,
with no reset between calls. -/
def drainGoNaive : Nat → JsonParseState →
    List (List Nat × List Nat) × JsonParseState × Option ScanExit
  | 0, st => ([], st, none)
  | fuel + 1, st =>
      let r := findKeyValuePairX st
      if r.1 = ScanExit.found then
        let rest := drainGoNaive fuel (shiftParseBufferByKeyValue r.2)
        (readPair r.2 :: rest.1, rest.2)
      else ([], r.2, some r.1)

/-- One quiescence round of the claim's literal scan/consume protocol. -/
def scanConsumeNaive (st : JsonParseState) :
    List (List Nat × List Nat) × JsonParseState × Option ScanExit :=
  drainGoNaive (st.parseBuffer.length + 1) st

/-- Chunked feeding with the claim's literal protocol (no resets). -/
def feedChunksNaive : JsonParseState → List (List Nat) →
    List (List Nat × List Nat) × JsonParseState × Bool
  | st, [] => ([], st, false)
  | st, c :: rest =>
      let r := scanConsumeNaive ⟨st.vars, st.parseBuffer ++ c⟩
      if exitCode r.2.2 ≠ 0 then (r.1, r.2.1, true)
      else
        let r2 := feedChunksNaive r.2.1 rest
        (r.1 ++ r2.1, r2.2.1, r2.2.2)

/-! ## The concrete input of claim C1 -/

/-- The bytes of `{"a":1,"b":"x,y","c":{"d":1},"e":[1,2]}` (39 bytes). -/
def inputBytes : List Nat :=
  [123, 34, 97, 34, 58, 49, 44,
   34, 98, 34, 58, 34, 120, 44, 121, 34, 44,
   34, 99, 34, 58, 123, 34, 100, 34, 58, 49, 125, 44,
   34, 101, 34, 58, 91, 49, 44, 50, 93, 125]

/-- The four key/value pairs the scanner is expected to deliver: `a` -> `1`,
`b` -> `"x,y"`, `c` -> `{"d":1}`, `e` -> `[1,2]` (values as raw spans,
quotes and escapes preserved). -/
def expectedPairs : List (List Nat × List Nat) :=
  [([97], [49]),
   ([98], [34, 120, 44, 121, 34]),
   ([99], [123, 34, 100, 34, 58, 49, 125]),
   ([101], [91, 49, 44, 50, 93])]

/-- Quiescence after absorbing the first `k` input bytes in one chunk. -/
def scanD (k : Nat) :
    List (List Nat × List Nat) × JsonParseState × Option ScanExit :=
  scanConsume ⟨freshScanState.vars, inputBytes.take k⟩

/-! ## Scanner: appending input does not disturb completed work

These lemmas justify chunking-independence: a scan that found a pair finds
the same pair after more bytes are appended; a scan that exhausted the
buffer resumes where it left off; and re-scanning the same buffer from a
reset state reproduces the same final scan variables. -/

/-- A found pair is stable under appending bytes to the buffer. -/
theorem scanLoopX_found_append :
    ∀ (l : List Nat) (v : ScanVars) (i : Nat) (buf buf2 y : List Nat)
      (st : JsonParseState),
      scanLoopX buf v l i = (ScanExit.found, st) →
      scanLoopX buf2 v (l ++ y) i = (ScanExit.found, ⟨st.vars, buf2⟩) := by
  intro l
  induction l with
  | nil =>
      intro v i buf buf2 y st h
      rw [scanLoopX] at h
      simp at h
  | cons c rest ih =>
      intro v i buf buf2 y st h
      rw [scanLoopX] at h
      rw [List.cons_append, scanLoopX]
      cases hstep : scanStep v c i with
      | cont v1 =>
          rw [hstep] at h
          exact ih v1 (i + 1) buf buf2 y st h
      | found v1 =>
          rw [hstep] at h
          simp only [Prod.mk.injEq] at h
          obtain ⟨-, h2⟩ := h
          subst h2
          rfl
      | completeBrace =>
          rw [hstep] at h
          dsimp only at h
          split at h <;> simp at h
      | errReset =>
          rw [hstep] at h
          simp at h

/-- A scan that exhausted its bytes resumes on appended bytes from its final
variables, at the index it reached. -/
theorem scanLoopX_exhausted_append :
    ∀ (l : List Nat) (v : ScanVars) (i : Nat) (buf buf2 y : List Nat)
      (st : JsonParseState),
      scanLoopX buf v l i = (ScanExit.exhausted, st) →
      scanLoopX buf2 v (l ++ y) i = scanLoopX buf2 st.vars y (i + l.length) := by
  intro l
  induction l with
  | nil =>
      intro v i buf buf2 y st h
      rw [scanLoopX] at h
      simp only [Prod.mk.injEq] at h
      rw [List.nil_append]
      have hv : st.vars = v := by rw [← h.2]
      rw [hv, List.length_nil, Nat.add_zero]
  | cons c rest ih =>
      intro v i buf buf2 y st h
      rw [scanLoopX] at h
      rw [List.cons_append, scanLoopX]
      cases hstep : scanStep v c i with
      | cont v1 =>
          rw [hstep] at h
          dsimp only
          rw [ih v1 (i + 1) buf buf2 y st h]
          congr 1
          simp only [List.length_cons]
          omega
      | found v1 =>
          rw [hstep] at h
          simp at h
      | completeBrace =>
          rw [hstep] at h
          dsimp only at h
          split at h <;> simp at h
      | errReset =>
          rw [hstep] at h
          simp at h

/-- `find_key_value_pair` on a value-tracking-reset state is the scan loop
from index 0 (the entry-state check passes). -/
theorem findKeyValuePairX_reset (v : ScanVars) (b : List Nat) :
    findKeyValuePairX ⟨resetValueTracking v, b⟩ =
      scanLoopX b (resetValueTracking v) b 0 := by
  unfold findKeyValuePairX
  split
  · next hst => exact absurd rfl hst
  · rfl

/-- A found pair of a scan is found identically after appending bytes. -/
theorem findKeyValuePairX_found_append {v : ScanVars} {b : List Nat}
    {s : JsonParseState} (y : List Nat)
    (h : findKeyValuePairX ⟨v, b⟩ = (ScanExit.found, s)) :
    findKeyValuePairX ⟨v, b ++ y⟩ = (ScanExit.found, ⟨s.vars, b ++ y⟩) := by
  unfold findKeyValuePairX at h ⊢
  split at h
  · simp at h
  · next hst =>
      rw [if_neg hst]
      exact scanLoopX_found_append b v 0 b (b ++ y) y s h

/-- An exhausted `find_key_value_pair` came from the scan loop on an
unchanged buffer. -/
theorem findKeyValuePairX_exhausted_spec {st s : JsonParseState}
    (h : findKeyValuePairX st = (ScanExit.exhausted, s)) :
    s.parseBuffer = st.parseBuffer ∧
    scanLoopX st.parseBuffer st.vars st.parseBuffer 0 =
      (ScanExit.exhausted, s) := by
  unfold findKeyValuePairX at h
  split at h
  · simp at h
  · exact ⟨scanLoopX_exhausted_buffer st.parseBuffer st.vars 0 st.parseBuffer s h, h⟩

/-- Reading a found pair is unaffected by bytes appended after the span. -/
theorem readPair_append (s : JsonParseState) (y : List Nat)
    (h0 : 0 ≤ s.vars.valueStart) (h1 : 1 ≤ s.vars.valueLen)
    (h2 : s.vars.valueStart + s.vars.valueLen + 1 ≤ (s.parseBuffer.length : Int)) :
    readPair ⟨s.vars, s.parseBuffer ++ y⟩ = readPair s := by
  unfold readPair
  dsimp only
  congr 1
  rw [List.drop_append_of_le_length (by omega)]
  rw [List.take_append_of_le_length]
  simp only [List.length_drop]
  omega

/-- Consuming a found pair commutes with appending bytes after the span. -/
theorem shift_append (s : JsonParseState) (y : List Nat)
    (h0 : 0 ≤ s.vars.valueStart) (h1 : 1 ≤ s.vars.valueLen)
    (h2 : s.vars.valueStart + s.vars.valueLen + 1 ≤ (s.parseBuffer.length : Int)) :
    shiftParseBufferByKeyValue ⟨s.vars, s.parseBuffer ++ y⟩ =
      ⟨(shiftParseBufferByKeyValue s).vars,
       (shiftParseBufferByKeyValue s).parseBuffer ++ y⟩ := by
  unfold shiftParseBufferByKeyValue
  dsimp only
  have hlen : s.parseBuffer.length ≠ 0 := by omega
  have hval : ¬s.vars.valueLen ≤ 0 := by omega
  rw [if_neg, if_neg]
  · unfold shiftBufferByLen
    dsimp only
    congr 1
    rw [List.drop_append_of_le_length (by omega)]
  · simp only [Bool.or_eq_true, beq_iff_eq, decide_eq_true_eq, List.length_eq_zero]
    push_neg
    exact ⟨by intro hc; exact hlen (by rw [hc]; rfl), by omega⟩
  · simp only [Bool.or_eq_true, beq_iff_eq, decide_eq_true_eq, List.length_append]
    push_neg
    constructor
    · omega
    · omega

/-- `drainGo` is independent of the fuel once it exceeds the buffer length
(each consume removes at least one byte). -/
theorem drainGo_fuel_mono :
    ∀ (fuel fuel2 : Nat) (st : JsonParseState),
      st.parseBuffer.length < fuel → st.parseBuffer.length < fuel2 →
      drainGo fuel st = drainGo fuel2 st := by
  intro fuel
  induction fuel with
  | zero => intro fuel2 st h _; omega
  | succ f ih =>
      intro fuel2 st h h2
      cases fuel2 with
      | zero => omega
      | succ f2 =>
          rw [drainGo, drainGo]
          dsimp only
          by_cases hfound : (findKeyValuePairX (resetScan st)).1 = ScanExit.found
          · rw [if_pos hfound, if_pos hfound]
            have hfkv : findKeyValuePairX (resetScan st) =
                (ScanExit.found, (findKeyValuePairX (resetScan st)).2) := by
              rw [← hfound]
            have hs := consume_shrinks hfkv
            have hr : (resetScan st).parseBuffer.length = st.parseBuffer.length := rfl
            rw [ih f2 (shiftParseBufferByKeyValue (findKeyValuePairX (resetScan st)).2)
              (by omega) (by omega)]
          · rw [if_neg hfound, if_neg hfound]

/-- One drain step is determined by the first scan's result. -/
theorem drainGo_congr_scan (fuel : Nat) (a b : JsonParseState)
    (h : findKeyValuePairX (resetScan a) = findKeyValuePairX (resetScan b)) :
    drainGo (fuel + 1) a = drainGo (fuel + 1) b := by
  rw [drainGo, drainGo]
  dsimp only
  rw [h]

/-- Composability of the drain under appended input: if draining a state
ends with an exhausted scan, and re-scanning its final state reproduces that
final state (the replay hypothesis `hrep`, checked concretely at every state
where this lemma is applied), then draining with extra bytes appended first
replays the already-found pairs and then continues exactly as a fresh drain
of the final state with the extra bytes appended. -/
theorem drainGo_append_aux :
    ∀ (fuel : Nat) (st : JsonParseState) (y : List Nat)
      (ps : List (List Nat × List Nat)) (st2 : JsonParseState),
      st.parseBuffer.length < fuel →
      drainGo fuel st = (ps, st2, some ScanExit.exhausted) →
      scanLoopX st2.parseBuffer (resetValueTracking st2.vars) st2.parseBuffer 0
        = (ScanExit.exhausted, st2) →
      scanConsume ⟨st.vars, st.parseBuffer ++ y⟩ =
        (ps ++ (scanConsume ⟨st2.vars, st2.parseBuffer ++ y⟩).1,
         (scanConsume ⟨st2.vars, st2.parseBuffer ++ y⟩).2) := by
  intro fuel
  induction fuel with
  | zero => intro st y ps st2 h _ _; omega
  | succ f ih =>
      intro st y ps st2 hlen hd hrep
      rw [drainGo] at hd
      dsimp only at hd
      by_cases hfound : (findKeyValuePairX (resetScan st)).1 = ScanExit.found
      · -- the first scan finds a pair; it is found identically after the
        -- append, consumed identically, and the tail drains relate by ih
        rw [if_pos hfound] at hd
        have hfkv : findKeyValuePairX (resetScan st) =
            (ScanExit.found, (findKeyValuePairX (resetScan st)).2) := by
          rw [← hfound]
        set s := (findKeyValuePairX (resetScan st)).2 with hs
        have hb := findKeyValuePairX_found_bounds hfkv
        have hshr := consume_shrinks hfkv
        have hrs : (resetScan st).parseBuffer = st.parseBuffer := rfl
        simp only [hrs] at hb hshr
        simp only [Prod.mk.injEq] at hd
        obtain ⟨hps, htail⟩ := hd
        -- htail : (drainGo f (shiftParseBufferByKeyValue s)).2 = (st2, some exhausted)
        have htaildrain : drainGo f (shiftParseBufferByKeyValue s) =
            ((drainGo f (shiftParseBufferByKeyValue s)).1, st2,
             some ScanExit.exhausted) := by
          rw [← htail]
        have htl : (shiftParseBufferByKeyValue s).parseBuffer.length < f := by
          omega
        have hihx := ih (shiftParseBufferByKeyValue s) y _ st2 htl htaildrain hrep
        -- now compute the appended drain
        unfold scanConsume
        rw [drainGo]
        dsimp only
        have happ := @findKeyValuePairX_found_append
          (resetValueTracking st.vars) st.parseBuffer _ y hfkv
        have hresetapp : findKeyValuePairX (resetScan ⟨st.vars, st.parseBuffer ++ y⟩)
            = (ScanExit.found, ⟨s.vars, st.parseBuffer ++ y⟩) := happ
        rw [hresetapp]
        rw [if_pos rfl]
        dsimp only
        -- the found state after append, its pair, and its consume
        have hbufs : s.parseBuffer = st.parseBuffer := hb.1
        have hreads : readPair ⟨s.vars, st.parseBuffer ++ y⟩ = readPair s := by
          have := readPair_append s y hb.2.1 hb.2.2.1 (by rw [hbufs]; exact hb.2.2.2)
          rw [hbufs] at this
          exact this
        have hshifts : shiftParseBufferByKeyValue ⟨s.vars, st.parseBuffer ++ y⟩ =
            ⟨(shiftParseBufferByKeyValue s).vars,
             (shiftParseBufferByKeyValue s).parseBuffer ++ y⟩ := by
          have := shift_append s y hb.2.1 hb.2.2.1 (by rw [hbufs]; exact hb.2.2.2)
          rw [hbufs] at this
          exact this
        rw [hreads, hshifts]
        -- relate the appended tail (at this fuel) to scanConsume via fuel mono
        have hmono : drainGo (st.parseBuffer ++ y).length
            ⟨(shiftParseBufferByKeyValue s).vars,
             (shiftParseBufferByKeyValue s).parseBuffer ++ y⟩ =
            scanConsume ⟨(shiftParseBufferByKeyValue s).vars,
              (shiftParseBufferByKeyValue s).parseBuffer ++ y⟩ := by
          unfold scanConsume
          apply drainGo_fuel_mono
          · dsimp only
            simp only [List.length_append]
            omega
          · dsimp only
            simp only [List.length_append]
            omega
        rw [hmono, hihx, ← hps]
        rfl
      · -- the first scan exhausts: the appended drain and the appended
        -- drain of the final state begin with literally the same scan
        rw [if_neg hfound] at hd
        simp only [Prod.mk.injEq] at hd
        obtain ⟨hps, hst2, hexit⟩ := hd
        have hexh : (findKeyValuePairX (resetScan st)).1 = ScanExit.exhausted := by
          cases hx : (findKeyValuePairX (resetScan st)).1 <;> rw [hx] at hexit <;>
            simp_all
        have hfkv : findKeyValuePairX (resetScan st) = (ScanExit.exhausted, st2) := by
          rw [← hexh, ← hst2]
        have hspec := findKeyValuePairX_exhausted_spec hfkv
        have hbuf : st2.parseBuffer = st.parseBuffer := hspec.1
        -- both appended first scans resume from st2.vars at the same index
        have hresume1 : findKeyValuePairX (resetScan ⟨st.vars, st.parseBuffer ++ y⟩)
            = scanLoopX (st.parseBuffer ++ y) st2.vars y
                (0 + st.parseBuffer.length) := by
          rw [show resetScan ⟨st.vars, st.parseBuffer ++ y⟩ =
            (⟨resetValueTracking st.vars, st.parseBuffer ++ y⟩ : JsonParseState) from rfl]
          rw [findKeyValuePairX_reset]
          exact scanLoopX_exhausted_append st.parseBuffer (resetValueTracking st.vars)
            0 st.parseBuffer (st.parseBuffer ++ y) y st2 hspec.2
        have hrep2 : scanLoopX st.parseBuffer (resetValueTracking st2.vars)
            st.parseBuffer 0 = (ScanExit.exhausted, st2) := by
          rw [← hbuf]
          exact hrep
        have hresume2 : findKeyValuePairX (resetScan ⟨st2.vars, st.parseBuffer ++ y⟩)
            = scanLoopX (st.parseBuffer ++ y) st2.vars y
                (0 + st.parseBuffer.length) := by
          rw [show resetScan ⟨st2.vars, st.parseBuffer ++ y⟩ =
            (⟨resetValueTracking st2.vars, st.parseBuffer ++ y⟩ : JsonParseState) from rfl]
          rw [findKeyValuePairX_reset]
          exact scanLoopX_exhausted_append st.parseBuffer (resetValueTracking st2.vars)
            0 st.parseBuffer (st.parseBuffer ++ y) y st2 hrep2
        have hcongr : scanConsume ⟨st.vars, st.parseBuffer ++ y⟩ =
            scanConsume ⟨st2.vars, st2.parseBuffer ++ y⟩ := by
          rw [hbuf]
          unfold scanConsume
          dsimp only
          apply drainGo_congr_scan
          rw [hresume1, hresume2]
        rw [hcongr, ← hps]
        rw [List.nil_append]

/-- Composability of a quiescence round under appended input. -/
theorem scanConsume_append (st : JsonParseState) (y : List Nat)
    (ps : List (List Nat × List Nat)) (st2 : JsonParseState)
    (h : scanConsume st = (ps, st2, some ScanExit.exhausted))
    (hrep : scanLoopX st2.parseBuffer (resetValueTracking st2.vars)
        st2.parseBuffer 0 = (ScanExit.exhausted, st2)) :
    scanConsume ⟨st.vars, st.parseBuffer ++ y⟩ =
      (ps ++ (scanConsume ⟨st2.vars, st2.parseBuffer ++ y⟩).1,
       (scanConsume ⟨st2.vars, st2.parseBuffer ++ y⟩).2) :=
  drainGo_append_aux (st.parseBuffer.length + 1) st y ps st2 (by omega) h hrep

/-! ## Chunking-independence for the concrete input -/

/-- Decidable check: after absorbing `take k` of the input, the drain ended
with an exhausted scan, and re-scanning its final state reproduces that
state (the replay hypothesis of `scanConsume_append`). -/
def scanDStable (k : Nat) : Bool :=
  let d := (scanD k).2.1
  ((scanD k).2.2 == some ScanExit.exhausted) &&
  (scanLoopX d.parseBuffer (resetValueTracking d.vars) d.parseBuffer 0 ==
    (ScanExit.exhausted, d))

set_option maxRecDepth 100000 in
/-- Every prefix of the concrete input drains to a stable state. -/
theorem scanD_stable_all : ∀ k, k < 40 → scanDStable k = true := by decide

/-- The drain of every input prefix ends with an exhausted scan. -/
theorem scanD_exhausted {k : Nat} (hk : k ≤ 39) :
    (scanD k).2.2 = some ScanExit.exhausted := by
  have h := scanD_stable_all k (by omega)
  unfold scanDStable at h
  simp only [Bool.and_eq_true, beq_iff_eq] at h
  exact h.1

/-- Replaying the final state of the drain of an input prefix reproduces it. -/
theorem scanD_replay {k : Nat} (hk : k ≤ 39) :
    scanLoopX (scanD k).2.1.parseBuffer
        (resetValueTracking (scanD k).2.1.vars) (scanD k).2.1.parseBuffer 0 =
      (ScanExit.exhausted, (scanD k).2.1) := by
  have h := scanD_stable_all k (by omega)
  unfold scanDStable at h
  simp only [Bool.and_eq_true, beq_iff_eq] at h
  exact h.2

/-- Absorbing the next `m` input bytes from the drained state of the first
`k` reaches the drained state of the first `k + m`, emitting exactly the
missing pairs. -/
theorem scanD_step (k m : Nat) (hk : k + m ≤ 39) :
    (scanD k).1 ++ (scanConsume ⟨(scanD k).2.1.vars,
        (scanD k).2.1.parseBuffer ++ (inputBytes.drop k).take m⟩).1 =
      (scanD (k + m)).1 ∧
    (scanConsume ⟨(scanD k).2.1.vars,
        (scanD k).2.1.parseBuffer ++ (inputBytes.drop k).take m⟩).2 =
      ((scanD (k + m)).2.1, (scanD (k + m)).2.2) := by
  have hEq : scanConsume ⟨freshScanState.vars, inputBytes.take k⟩ =
      ((scanD k).1, (scanD k).2.1, some ScanExit.exhausted) := by
    rw [← scanD_exhausted (show k ≤ 39 by omega)]
    rfl
  have hgc := scanConsume_append ⟨freshScanState.vars, inputBytes.take k⟩
    ((inputBytes.drop k).take m) (scanD k).1 (scanD k).2.1 hEq
    (scanD_replay (show k ≤ 39 by omega))
  have htake : inputBytes.take k ++ (inputBytes.drop k).take m =
      inputBytes.take (k + m) := by
    rw [List.take_add]
  rw [show (⟨freshScanState.vars, inputBytes.take k⟩ : JsonParseState).vars =
    freshScanState.vars from rfl] at hgc
  rw [show (⟨freshScanState.vars, inputBytes.take k⟩ :
    JsonParseState).parseBuffer = inputBytes.take k from rfl] at hgc
  rw [htake] at hgc
  have hgc2 : scanD (k + m) =
      ((scanD k).1 ++ (scanConsume ⟨(scanD k).2.1.vars,
          (scanD k).2.1.parseBuffer ++ (inputBytes.drop k).take m⟩).1,
       (scanConsume ⟨(scanD k).2.1.vars,
          (scanD k).2.1.parseBuffer ++ (inputBytes.drop k).take m⟩).2) := hgc
  constructor
  · rw [hgc2]
  · rw [hgc2]

/-- The main chunking argument: feeding any chunk decomposition of the rest
of the input to the drained state of the first `k` bytes emits exactly the
remaining pairs and lands in the drained state of the whole input, with no
scan error. -/
theorem feedChunks_from (chunks : List (List Nat)) :
    ∀ (k : Nat), k ≤ 39 → chunks.flatten = inputBytes.drop k →
    feedChunks (scanD k).2.1 chunks =
      ((scanD 39).1.drop (scanD k).1.length, (scanD 39).2.1, false) := by
  induction chunks with
  | nil =>
      intro k hk hj
      have hlen39 : inputBytes.length = 39 := rfl
      have hk39 : k = 39 := by
        have hj2 : inputBytes.drop k = [] := by rw [← hj]; rfl
        have hl := congrArg List.length hj2
        simp only [List.length_drop, hlen39, List.length_nil] at hl
        omega
      subst hk39
      rw [feedChunks]
      try rw [List.drop_length]
  | cons c rest ih =>
      intro k hk hj
      rw [List.flatten_cons] at hj
      have hlen39 : inputBytes.length = 39 := rfl
      have hm : c.length ≤ 39 - k := by
        have hl := congrArg List.length hj
        simp only [List.length_append, List.length_drop, hlen39] at hl
        omega
      have hc : c = (inputBytes.drop k).take c.length := by
        have ht := congrArg (List.take c.length) hj
        rw [List.take_left] at ht
        exact ht
      have hrest : rest.flatten = inputBytes.drop (k + c.length) := by
        have hd := congrArg (List.drop c.length) hj
        rw [List.drop_left] at hd
        rw [hd, List.drop_drop]
      have hstep := scanD_step k c.length (by omega)
      rw [← hc] at hstep
      have hx2 : (scanConsume ⟨(scanD k).2.1.vars,
          (scanD k).2.1.parseBuffer ++ c⟩).2.2 = some ScanExit.exhausted := by
        rw [hstep.2]
        exact scanD_exhausted (by omega)
      have hx1 : (scanConsume ⟨(scanD k).2.1.vars,
          (scanD k).2.1.parseBuffer ++ c⟩).2.1 = (scanD (k + c.length)).2.1 := by
        rw [hstep.2]
      rw [feedChunks]
      dsimp only
      rw [hx2]
      rw [if_neg (by simp [exitCode, ScanExit.code])]
      rw [hx1]
      rw [ih (k + c.length) (by omega) hrest]
      dsimp only
      have hstep39 := (scanD_step (k + c.length) (39 - (k + c.length))
        (by omega)).1
      rw [show k + c.length + (39 - (k + c.length)) = 39 from by omega]
        at hstep39
      have hfin : (scanConsume ⟨(scanD k).2.1.vars,
          (scanD k).2.1.parseBuffer ++ c⟩).1 ++
            (scanD 39).1.drop (scanD (k + c.length)).1.length =
          (scanD 39).1.drop (scanD k).1.length := by
        rw [← hstep39, ← hstep.1, List.drop_left, List.append_assoc,
          List.drop_left]
      rw [hfin]

/-! ## Claim C1 -/

set_option maxRecDepth 100000 in
/-- Claim C1 as stated is false: feeding
`{"a":1,"b":"x,y","c":{"d":1},"e":[1,2]}` one byte at a time while invoking
only `find_key_value_pair` and (on found results)
`shift_parse_buffer_by_key_value` reports an error (`-1`, the SyntaxError
return) and delivers no pairs at all, because `find_key_value_pair` rejects
any entry state other than `PARSE_STATE_SEEKING_KEY`, and a scan that ran
out of input mid-key or mid-value leaves the state mid-phase. -/
theorem c1_naive_byte_feed_errors :
    (feedChunksNaive freshScanState (inputBytes.map (fun b => [b]))).2.2
      = true ∧
    (feedChunksNaive freshScanState (inputBytes.map (fun b => [b]))).1
      = [] := by
  constructor <;> decide

set_option maxRecDepth 100000 in
/-- Claim C1 amended: for every way of chunking the input bytes of
`{"a":1,"b":"x,y","c":{"d":1},"e":[1,2]}` into successive appends to the
scan buffer (including one byte at a time), repeatedly invoking the scan
operation — each time after resetting value tracking, i.e. rescanning from
the top of the unconsumed buffer, as the scanner's entry-state check
requires — and, on each found result, the consume operation, yields exactly
the pairs a -> 1, b -> "x,y", c -> {"d":1}, e -> [1,2] in that order, with
no error return at any point; afterwards the remaining buffer is empty and
a final scan reports 0 with an all-whitespace remainder (the ObjectComplete
outcome; the closing brace was consumed as the final pair's delimiter). -/
theorem c1_chunked_scan_consume (chunks : List (List Nat))
    (h : chunks.flatten = inputBytes) :
    feedChunks freshScanState chunks =
      (expectedPairs, (scanD 39).2.1, false) ∧
    (scanD 39).2.1.parseBuffer = [] ∧
    findKeyValuePair (resetScan (scanD 39).2.1) = (0, (scanD 39).2.1) ∧
    checkRemainingBuffer (scanD 39).2.1 = 1 := by
  refine ⟨?_, by decide, by decide, by decide⟩
  have hM := feedChunks_from chunks 0 (by omega) (by simpa using h)
  have h0 : (scanD 0).2.1 = freshScanState := by decide
  have h0p : (scanD 0).1 = ([] : List (List Nat × List Nat)) := by decide
  have h39 : (scanD 39).1 = expectedPairs := by decide
  rw [h0, h0p] at hM
  simpa [h39] using hM

set_option maxRecDepth 100000 in
/-- Witness for `c1_chunked_scan_consume` at the one-chunk chunking. -/
theorem c1_chunked_scan_consume_witness :
    feedChunks freshScanState [inputBytes] =
      (expectedPairs, (scanD 39).2.1, false) ∧
    (scanD 39).2.1.parseBuffer = [] ∧
    findKeyValuePair (resetScan (scanD 39).2.1) = (0, (scanD 39).2.1) ∧
    checkRemainingBuffer (scanD 39).2.1 = 1 :=
  c1_chunked_scan_consume [inputBytes] (by decide)

/-! ## Claim C7 -/

/-- Claim C7: in the `InValue` phase scanning a quoted string value, a
pending escape makes the scanner skip the next byte entirely — in
particular an escaped quote neither toggles `in_quotes` nor ends the value
(first conjunct, for every scan state, byte and index); concretely, the
value `"a\"b"` of `{"k":"a\"b",` is reported as one found pair whose raw
span is the full `"a\"b"`, escape preserved uninterpreted (second
conjunct). -/
theorem c7_escaped_quote_in_value :
    (∀ (v : ScanVars) (c i : Nat),
      scanStep
        { v with
          state := PState.inValue
          inQuotes := true
          escapeNext := true } c i =
        StepOut.cont
          { v with
            state := PState.inValue
            inQuotes := true
            escapeNext := false }) ∧
    (findKeyValuePair ⟨freshScanState.vars,
        [123, 34, 107, 34, 58, 34, 97, 92, 34, 98, 34, 44]⟩).1 = 1 ∧
    readPair (findKeyValuePair ⟨freshScanState.vars,
        [123, 34, 107, 34, 58, 34, 97, 92, 34, 98, 34, 44]⟩).2 =
      ([107], [34, 97, 92, 34, 98, 34]) := by
  refine ⟨fun v c i => rfl, by decide, by decide⟩

/-! ## Claim C8 -/

/-- Claim C8 as stated is false: scanning `{"a\"` (an escaped quote inside
a key) leaves the scanner already past the key, in the `SeekingColon`
phase, with key buffer `a\` — the backslash-preceded quote DID terminate
the key, because `escape_pending` is only armed while `in_quotes` is true
and `in_quotes` is false in the `InKey` phase. -/
theorem c8_escaped_quote_ends_key :
    (findKeyValuePair ⟨freshScanState.vars,
        [123, 34, 97, 92, 34]⟩).2.vars.state = PState.seekingColon ∧
    (findKeyValuePair ⟨freshScanState.vars,
        [123, 34, 97, 92, 34]⟩).2.vars.keyBuffer = [97, 92] ∧
    (findKeyValuePair ⟨freshScanState.vars,
        [123, 34, 97, 92, 34]⟩).2.vars.keyPos = 2 := by
  refine ⟨by decide, by decide, by decide⟩

/-- Claim C8 amended: in the `InKey` phase `in_quotes` is false, so a
backslash never arms `escape_pending` there; it is accumulated as an
ordinary key byte (when the key buffer has room), and the next quote —
escaped or not — terminates the key. -/
theorem c8_backslash_plain_in_key (v : ScanVars) (i j : Nat)
    (hkey : v.keyPos < 63) :
    scanStep
      { v with
        state := PState.inKey
        inQuotes := false
        escapeNext := false } 92 i =
      StepOut.cont
        { v with
          state := PState.inKey
          inQuotes := false
          escapeNext := false
          keyBuffer := v.keyBuffer.take v.keyPos ++ [92]
          keyPos := v.keyPos + 1 } ∧
    scanStep
      { v with
        state := PState.inKey
        inQuotes := false
        escapeNext := false } 34 j =
      StepOut.cont
        { v with
          state := PState.seekingColon
          inQuotes := false
          escapeNext := false } := by
  constructor
  · unfold scanStep
    simp [hkey]
  · rfl

/-- Witness for `c8_backslash_plain_in_key` at a concrete scan state. -/
theorem c8_backslash_plain_in_key_witness :
    scanStep
      { freshScanState.vars with
        state := PState.inKey
        inQuotes := false
        escapeNext := false } 92 2 =
      StepOut.cont
        { freshScanState.vars with
          state := PState.inKey
          inQuotes := false
          escapeNext := false
          keyBuffer := freshScanState.vars.keyBuffer.take
            freshScanState.vars.keyPos ++ [92]
          keyPos := freshScanState.vars.keyPos + 1 } ∧
    scanStep
      { freshScanState.vars with
        state := PState.inKey
        inQuotes := false
        escapeNext := false } 34 3 =
      StepOut.cont
        { freshScanState.vars with
          state := PState.seekingColon
          inQuotes := false
          escapeNext := false } :=
  c8_backslash_plain_in_key freshScanState.vars 2 3 (by decide)

/-! ## Writer: data model (`sjson_context_t` of `stream_json.h`)

`buffer` / `buffer_size` / `used` become the list `buf` (so `used =
buf.length`) together with `bufferSize`.  The caller-supplied
`send_callback` / `user_data` pair becomes an acceptance oracle
`sink : Nat → Bool`, passed explicitly to every operation and consulted with
the index of the sink invocation (`flushCount`): the engine is deterministic
and only ever observes the callback's boolean answer, so an index-based
oracle covers every possible (even stateful) sink behavior.  Two ghost
fields record the observable interaction: `sent` is the concatenation of all
byte chunks the sink accepted, and `flushCount` counts sink invocations.
C `status = f(...); if (status != SJSON_OK) return status;` sequences are
rendered as `let r := f ...; if r.1 ≠ .ok then ... else ...`. -/

/-- `sjson_status_t`. -/
inductive SjsonStatus where
  | ok
  | invalidState
  | maxDepth
  | bufferFull
  | invalidParam
deriving DecidableEq

/-- `sjson_context_t` (with the ghost fields described above). -/
structure SjsonCtx where
  bufferSize : Nat
  buf : List Nat
  depthStack : List Nat
  depth : Nat
  maxDepth : Nat
  needsComma : List Bool
  finalized : Bool
  sent : List Nat
  flushCount : Nat
deriving DecidableEq

/-- `SJSON_MAX_DEPTH`. -/
def SJSON_MAX_DEPTH : Nat := 8

/-- A zeroed context, standing for the caller's `sjson_context_t` variable
before the first `sjson_Init*` call (the C object is uninitialized memory;
every operation except the `Init`s rejects this state through its own
guards, so zero-initialization is an innocuous choice). -/
def mkInitial (size : Nat) : SjsonCtx :=
  { bufferSize := size
    buf := []
    depthStack := List.replicate 9 0
    depth := 0
    maxDepth := SJSON_MAX_DEPTH
    needsComma := List.replicate 9 false
    finalized := false
    sent := []
    flushCount := 0 }

/-- `sjson_Flush`: nothing buffered is a no-op; otherwise invoke the sink,
and only on acceptance clear the buffer (rejected bytes are retained). -/
def sjson_Flush (sink : Nat → Bool) (ctx : SjsonCtx) : SjsonStatus × SjsonCtx :=
  if ctx.buf.length == 0 then (.ok, ctx)
  else if sink ctx.flushCount then
    (.ok, { ctx with sent := ctx.sent ++ ctx.buf, buf := [],
                     flushCount := ctx.flushCount + 1 })
  else
    (.bufferFull, { ctx with flushCount := ctx.flushCount + 1 })

/-- The `while (len > 0)` loop of the static `write` helper: copy as much as
fits, flushing whenever the buffer becomes full.  The `available = 0` branch
is unreachable whenever `bufferSize ≥ 1` (the flush in `write` guarantees
`buf.length < bufferSize` at every loop entry); in C a context with
`buffer_size = 0` would loop forever here, which a total model cannot
express, so that impossible branch reports `bufferFull`.  The fuel argument
(instantiated by `write` with `data.length + 1`) bounds the number of loop
iterations, which suffices because every iteration copies at least one
byte; the fuel-exhaustion case is unreachable under that instantiation. -/
def writeLoop (sink : Nat → Bool) : Nat → SjsonCtx → List Nat →
    SjsonStatus × SjsonCtx
  | 0, ctx, _ => (.bufferFull, ctx)
  | fuel + 1, ctx, data =>
    if data.length = 0 then (.ok, ctx)
    else
      if ctx.bufferSize - ctx.buf.length = 0 then (.bufferFull, ctx)
      else
        let toWrite := min data.length (ctx.bufferSize - ctx.buf.length)
        let ctx1 := { ctx with buf := ctx.buf ++ data.take toWrite }
        if ctx1.buf.length == ctx1.bufferSize then
          let r := sjson_Flush sink ctx1
          if r.1 ≠ SjsonStatus.ok then r
          else writeLoop sink fuel r.2 (data.drop toWrite)
        else writeLoop sink fuel ctx1 (data.drop toWrite)

/-- The static `write` helper: flush first if the buffer is already full,
then run the copy loop.  (The C NULL-pointer checks on `ctx`/`data` are not
representable and are omitted.) -/
def write (sink : Nat → Bool) (ctx : SjsonCtx) (data : List Nat) :
    SjsonStatus × SjsonCtx :=
  if ctx.bufferSize == ctx.buf.length then
    let r := sjson_Flush sink ctx
    if r.1 ≠ SjsonStatus.ok then r
    else writeLoop sink (data.length + 1) r.2 data
  else writeLoop sink (data.length + 1) ctx data

/-- `add_comma_if_needed`: write a `,` if the current depth already holds a
member, then mark the depth as holding one.  On a failed comma write the
flag is left as it was (it was already `true` in that branch). -/
def addCommaIfNeeded (sink : Nat → Bool) (ctx : SjsonCtx) :
    SjsonStatus × SjsonCtx :=
  if ctx.needsComma.getD ctx.depth false then
    let r := write sink ctx [44]
    if r.1 ≠ SjsonStatus.ok then r
    else (.ok, { r.2 with needsComma := r.2.needsComma.set r.2.depth true })
  else (.ok, { ctx with needsComma := ctx.needsComma.set ctx.depth true })

/-- `check_object_state`: usable, and the enclosing collection is an object
(top of the closer stack is `}`). -/
def checkObjectState (ctx : SjsonCtx) : SjsonStatus :=
  if ctx.finalized then .invalidState
  else if ctx.depth == 0 || ctx.depthStack.getD (ctx.depth - 1) 0 != 125 then
    .invalidState
  else .ok

/-- `check_array_state`: usable, and the enclosing collection is an array
(top of the closer stack is `]`). -/
def checkArrayState (ctx : SjsonCtx) : SjsonStatus :=
  if ctx.finalized then .invalidState
  else if ctx.depth == 0 || ctx.depthStack.getD (ctx.depth - 1) 0 != 93 then
    .invalidState
  else .ok

/-- `sjson_InitObject`: reject a zero-sized buffer, reset the context, write
the opening `{`, and push the root frame.  (NULL checks omitted; the fresh
caller buffer is modeled by clearing `buf`.) -/
def sjson_InitObject (sink : Nat → Bool) (ctx : SjsonCtx) (bufferSize : Nat) :
    SjsonStatus × SjsonCtx :=
  if bufferSize == 0 then (.invalidParam, ctx)
  else
    let c0 := { ctx with bufferSize := bufferSize, buf := [],
                         depth := 0, maxDepth := SJSON_MAX_DEPTH,
                         finalized := false,
                         depthStack := List.replicate 9 0,
                         needsComma := List.replicate 9 false }
    let r := write sink c0 [123]
    if r.1 ≠ SjsonStatus.ok then r
    else
      (.ok, { r.2 with depthStack := r.2.depthStack.set r.2.depth 125,
                       depth := r.2.depth + 1,
                       needsComma := r.2.needsComma.set (r.2.depth + 1) false })

/-- `sjson_InitArray`: as `sjson_InitObject` with `[` / `]`. -/
def sjson_InitArray (sink : Nat → Bool) (ctx : SjsonCtx) (bufferSize : Nat) :
    SjsonStatus × SjsonCtx :=
  if bufferSize == 0 then (.invalidParam, ctx)
  else
    let c0 := { ctx with bufferSize := bufferSize, buf := [],
                         depth := 0, maxDepth := SJSON_MAX_DEPTH,
                         finalized := false,
                         depthStack := List.replicate 9 0,
                         needsComma := List.replicate 9 false }
    let r := write sink c0 [91]
    if r.1 ≠ SjsonStatus.ok then r
    else
      (.ok, { r.2 with depthStack := r.2.depthStack.set r.2.depth 93,
                       depth := r.2.depth + 1,
                       needsComma := r.2.needsComma.set (r.2.depth + 1) false })

/-- `sjson_Close`: pop a frame and write its closing token, restoring the
frame (`ctx->depth++`) if that write fails; closing the root marks the
context finalized and flushes (a failed finalizing flush still leaves the
context finalized, with the bytes retained). -/
def sjson_Close (sink : Nat → Bool) (ctx : SjsonCtx) : SjsonStatus × SjsonCtx :=
  if ctx.finalized || ctx.depth == 0 then (.invalidState, ctx)
  else
    let d := ctx.depth - 1
    let r := write sink { ctx with depth := d } [ctx.depthStack.getD d 0]
    if r.1 ≠ SjsonStatus.ok then (r.1, { r.2 with depth := r.2.depth + 1 })
    else if r.2.depth == 0 then
      let rf := sjson_Flush sink { r.2 with finalized := true }
      if rf.1 ≠ SjsonStatus.ok then rf
      else (.ok, rf.2)
    else (.ok, { r.2 with needsComma := r.2.needsComma.set r.2.depth true })

/-- The nesting/finalization bookkeeping of a context, unchanged by the
byte-moving helpers (`sjson_Flush` / `write`). -/
def frameOf (ctx : SjsonCtx) : Nat × List Nat × Nat × List Bool × Bool × Nat :=
  (ctx.depth, ctx.depthStack, ctx.maxDepth, ctx.needsComma, ctx.finalized,
   ctx.bufferSize)

/-- `sjson_Flush` only moves bytes. -/
theorem sjson_Flush_frame (sink : Nat → Bool) (ctx : SjsonCtx) :
    frameOf (sjson_Flush sink ctx).2 = frameOf ctx := by
  unfold sjson_Flush
  split
  · rfl
  · split <;> rfl

/-- The `write` copy loop only moves bytes. -/
theorem writeLoop_frame (sink : Nat → Bool) (fuel : Nat) :
    ∀ (ctx : SjsonCtx) (data : List Nat),
      frameOf (writeLoop sink fuel ctx data).2 = frameOf ctx := by
  induction fuel with
  | zero => intro ctx data; rfl
  | succ f ih =>
      intro ctx data
      rw [writeLoop]
      dsimp only
      split
      · rfl
      · split
        · rfl
        · split
          · split
            · exact sjson_Flush_frame sink _
            · rw [ih]
              exact sjson_Flush_frame sink _
          · exact ih _ _

/-- `write` only moves bytes. -/
theorem write_frame (sink : Nat → Bool) (ctx : SjsonCtx) (data : List Nat) :
    frameOf (write sink ctx data).2 = frameOf ctx := by
  unfold write
  split
  · simp only []
    split
    · exact sjson_Flush_frame sink ctx
    · rw [writeLoop_frame]
      exact sjson_Flush_frame sink ctx
  · exact writeLoop_frame sink (data.length + 1) ctx data

/-- Projection of `write_frame`: `write` preserves `depth`. -/
theorem write_depth (sink : Nat → Bool) (ctx : SjsonCtx) (data : List Nat) :
    (write sink ctx data).2.depth = ctx.depth := by
  have h := write_frame sink ctx data
  simp only [frameOf, Prod.mk.injEq] at h
  exact h.1

/-- Projection of `sjson_Flush_frame`: flushing preserves `depth`. -/
theorem sjson_Flush_depth (sink : Nat → Bool) (ctx : SjsonCtx) :
    (sjson_Flush sink ctx).2.depth = ctx.depth := by
  have h := sjson_Flush_frame sink ctx
  simp only [frameOf, Prod.mk.injEq] at h
  exact h.1

/-- A successful `sjson_Close` was applied at positive depth and decremented
it by one (used for the termination of `sjson_End`'s loop). -/
theorem sjson_Close_ok_depth (sink : Nat → Bool) (ctx : SjsonCtx)
    (h : (sjson_Close sink ctx).1 = SjsonStatus.ok) :
    ctx.depth ≠ 0 ∧ (sjson_Close sink ctx).2.depth = ctx.depth - 1 := by
  have hwd := write_depth sink { ctx with depth := ctx.depth - 1 }
    [ctx.depthStack.getD (ctx.depth - 1) 0]
  have hfd := sjson_Flush_depth sink
    { (write sink { ctx with depth := ctx.depth - 1 }
        [ctx.depthStack.getD (ctx.depth - 1) 0]).2 with finalized := true }
  unfold sjson_Close at h ⊢
  simp only [] at h ⊢
  split_ifs at h ⊢ <;> simp_all

/-- `sjson_End`'s `while (ctx->depth > 0)` loop of `sjson_Close` calls.
The fuel (instantiated with `depth + 1` by `sjson_End`) bounds the number
of iterations, which suffices because every successful close decrements
`depth` by one (`sjson_Close_ok_depth`); fuel exhaustion is unreachable
under that instantiation. -/
def sjson_EndLoop (sink : Nat → Bool) : Nat → SjsonCtx → SjsonStatus × SjsonCtx
  | 0, ctx => (.invalidState, ctx)
  | fuel + 1, ctx =>
    if ctx.depth = 0 then (.ok, ctx)
    else
      let r := sjson_Close sink ctx
      if r.1 = SjsonStatus.ok then sjson_EndLoop sink fuel r.2
      else r

/-- `sjson_End`: if already finalized just flush; otherwise close every open
collection (the last close finalizes and flushes). -/
def sjson_End (sink : Nat → Bool) (ctx : SjsonCtx) : SjsonStatus × SjsonCtx :=
  if ctx.finalized then sjson_Flush sink ctx
  else sjson_EndLoop sink (ctx.depth + 1) ctx

/-! ## Writer: member-adding operations

The numeric text produced by `snprintf` is modeled as follows: `%ld` of an
`int64_t` is its decimal rendering (`intToAscii`; on the target `long` is
64-bit so the C cast `(long)value` is the identity), and `%.6f` of a `float`
is abstracted as a caller-supplied pre-rendered byte list, since IEEE-754
arithmetic and formatting are outside this embedding; every theorem below
quantifies over those rendered bytes.  `snprintf`'s return value ("characters
that would have been written, NUL excluded") is the length of the formatted
list, and the C truncation checks `written >= sizeof(buffer)` compare that
length against the literal stack-buffer sizes. -/

/-- Decimal digits (ASCII) of a natural number, most significant first,
peeled with fuel (`n` itself bounds the digit count; the fuel-exhaustion
case is unreachable since `n / 10 < n` keeps the value below the fuel). -/
def natToDigitsAux : Nat → Nat → List Nat
  | 0, n => [48 + n % 10]
  | fuel + 1, n => if n < 10 then [48 + n] else natToDigitsAux fuel (n / 10) ++ [48 + n % 10]

/-- Decimal digits (ASCII) of a natural number, most significant first. -/
def natToDigits (n : Nat) : List Nat :=
  natToDigitsAux n n

/-- `%ld`: decimal rendering of an integer, ASCII bytes. -/
def intToAscii (i : Int) : List Nat :=
  if i < 0 then 45 :: natToDigits i.natAbs else natToDigits i.toNat

/-- `sjson_AddStringToObject`: emits `"key":"value"` (via a 256-byte
`snprintf` buffer). -/
def sjson_AddStringToObject (sink : Nat → Bool) (ctx : SjsonCtx)
    (key value : List Nat) : SjsonStatus × SjsonCtx :=
  let s := checkObjectState ctx
  if s ≠ SjsonStatus.ok then (s, ctx)
  else
    let rc := addCommaIfNeeded sink ctx
    if rc.1 ≠ SjsonStatus.ok then rc
    else
      let formatted := 34 :: key ++ [34, 58, 34] ++ value ++ [34]
      if formatted.length ≥ 256 then (.bufferFull, rc.2)
      else write sink rc.2 formatted

/-- `sjson_AddIntToObject`: emits `"key":value` (via a 128-byte `snprintf`
buffer). -/
def sjson_AddIntToObject (sink : Nat → Bool) (ctx : SjsonCtx)
    (key : List Nat) (value : Int) : SjsonStatus × SjsonCtx :=
  let s := checkObjectState ctx
  if s ≠ SjsonStatus.ok then (s, ctx)
  else
    let rc := addCommaIfNeeded sink ctx
    if rc.1 ≠ SjsonStatus.ok then rc
    else
      let formatted := 34 :: key ++ [34, 58] ++ intToAscii value
      if formatted.length ≥ 128 then (.bufferFull, rc.2)
      else write sink rc.2 formatted

/-- `sjson_AddFloatToObject`: emits `"key":value` where `value` is the
`%.6f` rendering of the float argument, abstracted as the byte list
`rendered` (128-byte `snprintf` buffer). -/
def sjson_AddFloatToObject (sink : Nat → Bool) (ctx : SjsonCtx)
    (key rendered : List Nat) : SjsonStatus × SjsonCtx :=
  let s := checkObjectState ctx
  if s ≠ SjsonStatus.ok then (s, ctx)
  else
    let rc := addCommaIfNeeded sink ctx
    if rc.1 ≠ SjsonStatus.ok then rc
    else
      let formatted := 34 :: key ++ [34, 58] ++ rendered
      if formatted.length ≥ 128 then (.bufferFull, rc.2)
      else write sink rc.2 formatted

/-- IEEE-754 binary64 bit patterns, uninterpreted (the embedding never
inspects them). -/
def CDouble : Type := Nat

/-- IEEE-754 binary32 bit patterns, uninterpreted. -/
def CFloat : Type := Nat

/-- `sjson_AddNumberToObject`: the C body is the single statement
`return sjson_AddFloatToObject(ctx, key, (float)value);`.  The
double-to-float narrowing cast and the `%.6f` rendering are abstracted as
the function arguments `narrow` and `renderFloat`. -/
def sjson_AddNumberToObject (narrow : CDouble → CFloat)
    (renderFloat : CFloat → List Nat) (sink : Nat → Bool) (ctx : SjsonCtx)
    (key : List Nat) (value : CDouble) : SjsonStatus × SjsonCtx :=
  sjson_AddFloatToObject sink ctx key (renderFloat (narrow value))

/-- The element loop of `sjson_AddIntArrayToObject`: each element is
formatted as `"%s%ld"` (a comma for every element but the first) through a
32-byte buffer. -/
def addIntArrayLoop (sink : Nat → Bool) (ctx : SjsonCtx) (values : List Int)
    (first : Bool) : SjsonStatus × SjsonCtx :=
  match values with
  | [] => (.ok, ctx)
  | v :: rest =>
      let fmt := (if first then [] else [44]) ++ intToAscii v
      if fmt.length ≥ 32 then (.bufferFull, ctx)
      else
        let r := write sink ctx fmt
        if r.1 ≠ SjsonStatus.ok then r
        else addIntArrayLoop sink r.2 rest false

/-- `sjson_AddIntArrayToObject`: emits `"key":[v0,v1,...]` (key header via a
64-byte buffer, each element via a 32-byte buffer). -/
def sjson_AddIntArrayToObject (sink : Nat → Bool) (ctx : SjsonCtx)
    (key : List Nat) (values : List Int) : SjsonStatus × SjsonCtx :=
  let s := checkObjectState ctx
  if s ≠ SjsonStatus.ok then (s, ctx)
  else
    let rc := addCommaIfNeeded sink ctx
    if rc.1 ≠ SjsonStatus.ok then rc
    else
      let fmt := 34 :: key ++ [34, 58, 91]
      if fmt.length ≥ 64 then (.bufferFull, rc.2)
      else
        let rw := write sink rc.2 fmt
        if rw.1 ≠ SjsonStatus.ok then rw
        else
          let rl := addIntArrayLoop sink rw.2 values true
          if rl.1 ≠ SjsonStatus.ok then rl
          else write sink rl.2 [93]

/-- The element loop of `sjson_AddFloatArrayToObject` (elements pre-rendered
by `%.6f`, abstracted; 32-byte buffer per element). -/
def addFloatArrayLoop (sink : Nat → Bool) (ctx : SjsonCtx)
    (rendered : List (List Nat)) (first : Bool) : SjsonStatus × SjsonCtx :=
  match rendered with
  | [] => (.ok, ctx)
  | v :: rest =>
      let fmt := (if first then [] else [44]) ++ v
      if fmt.length ≥ 32 then (.bufferFull, ctx)
      else
        let r := write sink ctx fmt
        if r.1 ≠ SjsonStatus.ok then r
        else addFloatArrayLoop sink r.2 rest false

/-- `sjson_AddFloatArrayToObject`: emits `"key":[v0,v1,...]` with `%.6f`
elements. -/
def sjson_AddFloatArrayToObject (sink : Nat → Bool) (ctx : SjsonCtx)
    (key : List Nat) (rendered : List (List Nat)) : SjsonStatus × SjsonCtx :=
  let s := checkObjectState ctx
  if s ≠ SjsonStatus.ok then (s, ctx)
  else
    let rc := addCommaIfNeeded sink ctx
    if rc.1 ≠ SjsonStatus.ok then rc
    else
      let fmt := 34 :: key ++ [34, 58, 91]
      if fmt.length ≥ 64 then (.bufferFull, rc.2)
      else
        let rw := write sink rc.2 fmt
        if rw.1 ≠ SjsonStatus.ok then rw
        else
          let rl := addFloatArrayLoop sink rw.2 rendered true
          if rl.1 ≠ SjsonStatus.ok then rl
          else write sink rl.2 [93]

/-- `sjson_AddArrayToObject`: the only Add operation that validates the key
(`strlen(key) == 0 || strlen(key) > 128` is `InvalidParam`), then opens a
nested array `"key":[` (via a `char buffer[128+5]`) and pushes a frame,
unless the depth bound is reached. -/
def sjson_AddArrayToObject (sink : Nat → Bool) (ctx : SjsonCtx)
    (key : List Nat) : SjsonStatus × SjsonCtx :=
  if key.length == 0 || key.length > 128 then (.invalidParam, ctx)
  else
    let s := checkObjectState ctx
    if s ≠ SjsonStatus.ok then (s, ctx)
    else if ctx.depth ≥ ctx.maxDepth then (.maxDepth, ctx)
    else
      let rc := addCommaIfNeeded sink ctx
      if rc.1 ≠ SjsonStatus.ok then rc
      else
        let fmt := 34 :: key ++ [34, 58, 91]
        if fmt.length ≥ 133 then (.bufferFull, rc.2)
        else
          let rw := write sink rc.2 fmt
          if rw.1 ≠ SjsonStatus.ok then rw
          else
            (.ok, { rw.2 with depthStack := rw.2.depthStack.set rw.2.depth 93,
                              depth := rw.2.depth + 1,
                              needsComma := rw.2.needsComma.set (rw.2.depth + 1) false })

/-- `sjson_AddObjectToObject`: opens a nested object `"key":{` (128-byte
buffer; no key-length validation) and pushes a frame, unless the depth bound
is reached. -/
def sjson_AddObjectToObject (sink : Nat → Bool) (ctx : SjsonCtx)
    (key : List Nat) : SjsonStatus × SjsonCtx :=
  let s := checkObjectState ctx
  if s ≠ SjsonStatus.ok then (s, ctx)
  else if ctx.depth ≥ ctx.maxDepth then (.maxDepth, ctx)
  else
    let rc := addCommaIfNeeded sink ctx
    if rc.1 ≠ SjsonStatus.ok then rc
    else
      let fmt := 34 :: key ++ [34, 58, 123]
      if fmt.length ≥ 128 then (.bufferFull, rc.2)
      else
        let rw := write sink rc.2 fmt
        if rw.1 ≠ SjsonStatus.ok then rw
        else
          (.ok, { rw.2 with depthStack := rw.2.depthStack.set rw.2.depth 125,
                            depth := rw.2.depth + 1,
                            needsComma := rw.2.needsComma.set (rw.2.depth + 1) false })

/-- `sjson_AddRawToObject`: emits `"key":` followed by the raw value bytes
verbatim, through four separate `write` calls. -/
def sjson_AddRawToObject (sink : Nat → Bool) (ctx : SjsonCtx)
    (key value : List Nat) : SjsonStatus × SjsonCtx :=
  let s := checkObjectState ctx
  if s ≠ SjsonStatus.ok then (s, ctx)
  else
    let rc := addCommaIfNeeded sink ctx
    if rc.1 ≠ SjsonStatus.ok then rc
    else
      let r1 := write sink rc.2 [34]
      if r1.1 ≠ SjsonStatus.ok then r1
      else
        let r2 := write sink r1.2 key
        if r2.1 ≠ SjsonStatus.ok then r2
        else
          let r3 := write sink r2.2 [34, 58]
          if r3.1 ≠ SjsonStatus.ok then r3
          else write sink r3.2 value

/-- `sjson_AddIntToArray`: appends the decimal value to the open array
(32-byte buffer). -/
def sjson_AddIntToArray (sink : Nat → Bool) (ctx : SjsonCtx)
    (value : Int) : SjsonStatus × SjsonCtx :=
  let s := checkArrayState ctx
  if s ≠ SjsonStatus.ok then (s, ctx)
  else
    let rc := addCommaIfNeeded sink ctx
    if rc.1 ≠ SjsonStatus.ok then rc
    else
      let fmt := intToAscii value
      if fmt.length ≥ 32 then (.bufferFull, rc.2)
      else write sink rc.2 fmt

/-- `sjson_AddFloatToArray`: appends the `%.6f` rendering (abstracted) to
the open array (32-byte buffer). -/
def sjson_AddFloatToArray (sink : Nat → Bool) (ctx : SjsonCtx)
    (rendered : List Nat) : SjsonStatus × SjsonCtx :=
  let s := checkArrayState ctx
  if s ≠ SjsonStatus.ok then (s, ctx)
  else
    let rc := addCommaIfNeeded sink ctx
    if rc.1 ≠ SjsonStatus.ok then rc
    else
      if rendered.length ≥ 32 then (.bufferFull, rc.2)
      else write sink rc.2 rendered

/-- `sjson_AddStringToArray`: appends `"value"` to the open array, through
three separate `write` calls. -/
def sjson_AddStringToArray (sink : Nat → Bool) (ctx : SjsonCtx)
    (value : List Nat) : SjsonStatus × SjsonCtx :=
  let s := checkArrayState ctx
  if s ≠ SjsonStatus.ok then (s, ctx)
  else
    let rc := addCommaIfNeeded sink ctx
    if rc.1 ≠ SjsonStatus.ok then rc
    else
      let r1 := write sink rc.2 [34]
      if r1.1 ≠ SjsonStatus.ok then r1
      else
        let r2 := write sink r1.2 value
        if r2.1 ≠ SjsonStatus.ok then r2
        else write sink r2.2 [34]

/-! ## Writer: operation sequences

A reified datatype of writer API calls, used by the claims that quantify
over "every fixed sequence of writer operations".  `sjson_AddNumberToObject`
is definitionally `sjson_AddFloatToObject` after narrowing (see its
definition) and is therefore subsumed by the `addFloatToObject` constructor,
which quantifies over arbitrary rendered bytes. -/

/-- One writer API call (the `Init` calls re-initialize with the run's
buffer size). -/
inductive SjsonOp where
  | initObject
  | initArray
  | closeOp
  | endOp
  | flushOp
  | addStringToObject (key value : List Nat)
  | addIntToObject (key : List Nat) (value : Int)
  | addFloatToObject (key rendered : List Nat)
  | addRawToObject (key value : List Nat)
  | addIntArrayToObject (key : List Nat) (values : List Int)
  | addFloatArrayToObject (key : List Nat) (rendered : List (List Nat))
  | addArrayToObject (key : List Nat)
  | addObjectToObject (key : List Nat)
  | addIntToArray (value : Int)
  | addFloatToArray (rendered : List Nat)
  | addStringToArray (value : List Nat)
deriving DecidableEq

/-- Apply one operation. -/
def applyOp (sink : Nat → Bool) (size : Nat) : SjsonOp → SjsonCtx →
    SjsonStatus × SjsonCtx
  | .initObject, ctx => sjson_InitObject sink ctx size
  | .initArray, ctx => sjson_InitArray sink ctx size
  | .closeOp, ctx => sjson_Close sink ctx
  | .endOp, ctx => sjson_End sink ctx
  | .flushOp, ctx => sjson_Flush sink ctx
  | .addStringToObject key value, ctx => sjson_AddStringToObject sink ctx key value
  | .addIntToObject key value, ctx => sjson_AddIntToObject sink ctx key value
  | .addFloatToObject key rendered, ctx => sjson_AddFloatToObject sink ctx key rendered
  | .addRawToObject key value, ctx => sjson_AddRawToObject sink ctx key value
  | .addIntArrayToObject key values, ctx => sjson_AddIntArrayToObject sink ctx key values
  | .addFloatArrayToObject key rendered, ctx => sjson_AddFloatArrayToObject sink ctx key rendered
  | .addArrayToObject key, ctx => sjson_AddArrayToObject sink ctx key
  | .addObjectToObject key, ctx => sjson_AddObjectToObject sink ctx key
  | .addIntToArray value, ctx => sjson_AddIntToArray sink ctx value
  | .addFloatToArray rendered, ctx => sjson_AddFloatToArray sink ctx rendered
  | .addStringToArray value, ctx => sjson_AddStringToArray sink ctx value

/-- Run a sequence of operations from a context, collecting every status. -/
def runFrom (sink : Nat → Bool) (size : Nat) : SjsonCtx → List SjsonOp →
    List SjsonStatus × SjsonCtx
  | ctx, [] => ([], ctx)
  | ctx, op :: rest =>
      let r := applyOp sink size op ctx
      let r2 := runFrom sink size r.2 rest
      (r.1 :: r2.1, r2.2)

/-- Run a sequence of operations on the zeroed context. -/
def runOps (sink : Nat → Bool) (size : Nat) (ops : List SjsonOp) :
    List SjsonStatus × SjsonCtx :=
  runFrom sink size (mkInitial size) ops

/-- The always-accepting sink. -/
def acceptAll : Nat → Bool := fun _ => true

/-! ## Writer: projection lemmas for the byte-moving helpers -/

/-- The field equations packed in a `frameOf` equality. -/
theorem frame_fields {a b : SjsonCtx} (h : frameOf a = frameOf b) :
    a.depth = b.depth ∧ a.depthStack = b.depthStack ∧ a.maxDepth = b.maxDepth ∧
    a.needsComma = b.needsComma ∧ a.finalized = b.finalized ∧
    a.bufferSize = b.bufferSize := by
  simp only [frameOf, Prod.mk.injEq] at h
  exact h

/-- `write` preserves `finalized`. -/
theorem write_finalized (sink : Nat → Bool) (ctx : SjsonCtx) (data : List Nat) :
    (write sink ctx data).2.finalized = ctx.finalized :=
  (frame_fields (write_frame sink ctx data)).2.2.2.2.1

/-- `write` preserves `bufferSize`. -/
theorem write_bufferSize (sink : Nat → Bool) (ctx : SjsonCtx) (data : List Nat) :
    (write sink ctx data).2.bufferSize = ctx.bufferSize :=
  (frame_fields (write_frame sink ctx data)).2.2.2.2.2

/-- `sjson_Flush` preserves `finalized`. -/
theorem sjson_Flush_finalized (sink : Nat → Bool) (ctx : SjsonCtx) :
    (sjson_Flush sink ctx).2.finalized = ctx.finalized :=
  (frame_fields (sjson_Flush_frame sink ctx)).2.2.2.2.1

/-- `add_comma_if_needed` only touches bytes and the comma flags. -/
theorem addComma_fields (sink : Nat → Bool) (ctx : SjsonCtx) :
    (addCommaIfNeeded sink ctx).2.depth = ctx.depth ∧
    (addCommaIfNeeded sink ctx).2.depthStack = ctx.depthStack ∧
    (addCommaIfNeeded sink ctx).2.maxDepth = ctx.maxDepth ∧
    (addCommaIfNeeded sink ctx).2.finalized = ctx.finalized ∧
    (addCommaIfNeeded sink ctx).2.bufferSize = ctx.bufferSize := by
  unfold addCommaIfNeeded
  simp only []
  split
  · have h := frame_fields (write_frame sink ctx [44])
    split
    · exact ⟨h.1, h.2.1, h.2.2.1, h.2.2.2.2.1, h.2.2.2.2.2⟩
    · exact ⟨h.1, h.2.1, h.2.2.1, h.2.2.2.2.1, h.2.2.2.2.2⟩
  · exact ⟨rfl, rfl, rfl, rfl, rfl⟩

/-- `add_comma_if_needed` preserves `finalized`. -/
theorem addComma_finalized (sink : Nat → Bool) (ctx : SjsonCtx) :
    (addCommaIfNeeded sink ctx).2.finalized = ctx.finalized :=
  (addComma_fields sink ctx).2.2.2.1

/-! ## Writer: the accepting sink

For the buffer-size-independence claims the sink accepts every flush
(`acceptAll`); these lemmas compute what the byte movers do then. -/

/-- With an accepting sink a flush always succeeds and empties the buffer
into `sent`. -/
theorem flush_acceptAll (ctx : SjsonCtx) :
    (sjson_Flush acceptAll ctx).1 = SjsonStatus.ok ∧
    (sjson_Flush acceptAll ctx).2.sent = ctx.sent ++ ctx.buf ∧
    (sjson_Flush acceptAll ctx).2.buf = [] := by
  by_cases hb : ctx.buf = []
  · simp [sjson_Flush, hb]
  · have hlen : (ctx.buf.length == 0) = false := by
      simp [List.length_eq_zero, hb]
    simp [sjson_Flush, hlen, acceptAll]

/-- With an accepting sink the copy loop succeeds and accounts for every
byte: the final `sent ++ buf` is the initial one followed by the data, and
the buffer never ends up full. -/
theorem writeLoop_acceptAll :
    ∀ (fuel : Nat) (ctx : SjsonCtx) (data : List Nat),
      data.length < fuel → ctx.buf.length < ctx.bufferSize →
      (writeLoop acceptAll fuel ctx data).1 = SjsonStatus.ok ∧
      (writeLoop acceptAll fuel ctx data).2.sent ++
          (writeLoop acceptAll fuel ctx data).2.buf =
        ctx.sent ++ ctx.buf ++ data ∧
      (writeLoop acceptAll fuel ctx data).2.buf.length < ctx.bufferSize := by
  intro fuel
  induction fuel with
  | zero => intro ctx data hf hb; omega
  | succ f ih =>
      intro ctx data hf hb
      rw [writeLoop]
      simp only []
      split
      · rename_i hd
        have hdata : data = [] := List.length_eq_zero.mp hd
        subst hdata
        exact ⟨rfl, by simp, hb⟩
      · rename_i hd
        split
        · rename_i ha
          omega
        · rename_i ha
          split
          · rename_i hfull
            have hfl := flush_acceptAll
              { ctx with buf := ctx.buf ++
                  data.take (min data.length (ctx.bufferSize - ctx.buf.length)) }
            rw [if_neg (by simp [hfl.1])]
            have hbs : (sjson_Flush acceptAll
                { ctx with buf := ctx.buf ++
                    data.take (min data.length (ctx.bufferSize - ctx.buf.length)) }).2.bufferSize =
                ctx.bufferSize :=
              (frame_fields (sjson_Flush_frame acceptAll _)).2.2.2.2.2
            obtain ⟨h1, h2, h3⟩ := ih (sjson_Flush acceptAll
                { ctx with buf := ctx.buf ++
                    data.take (min data.length (ctx.bufferSize - ctx.buf.length)) }).2
              (data.drop (min data.length (ctx.bufferSize - ctx.buf.length)))
              (by rw [List.length_drop]; omega)
              (by rw [hfl.2.2, hbs]; simp; omega)
            refine ⟨h1, ?_, lt_of_lt_of_eq h3 hbs⟩
            rw [h2, hfl.2.1, hfl.2.2]
            simp [List.append_assoc]
          · rename_i hfull
            obtain ⟨h1, h2, h3⟩ := ih
              { ctx with buf := ctx.buf ++
                  data.take (min data.length (ctx.bufferSize - ctx.buf.length)) }
              (data.drop (min data.length (ctx.bufferSize - ctx.buf.length)))
              (by rw [List.length_drop]; omega)
              (by
                simp only [beq_iff_eq, List.length_append, List.length_take] at hfull ⊢
                omega)
            refine ⟨h1, ?_, h3⟩
            rw [h2]
            simp [List.append_assoc]

/-- The full byte stream a context accounts for: what the sink already
accepted followed by what is still buffered. -/
def outOf (ctx : SjsonCtx) : List Nat := ctx.sent ++ ctx.buf

/-- The buffer-size-independent view of a context: its byte stream plus the
nesting/finalization bookkeeping. -/
def absOf (ctx : SjsonCtx) :
    List Nat × Nat × List Nat × Nat × List Bool × Bool :=
  (outOf ctx, ctx.depth, ctx.depthStack, ctx.maxDepth, ctx.needsComma,
   ctx.finalized)

/-- Invariant of every context reachable under an accepting sink: a usable
buffer, never over-filled, and empty once finalized. -/
def goodCtx (ctx : SjsonCtx) : Prop :=
  1 ≤ ctx.bufferSize ∧ ctx.buf.length ≤ ctx.bufferSize ∧
  (ctx.finalized = true → ctx.buf = [])

/-- Contexts of two runs in lockstep: both reachable, same abstract view. -/
def Rel (a b : SjsonCtx) : Prop := goodCtx a ∧ goodCtx b ∧ absOf a = absOf b

/-- Lockstep in the not-yet-finalized region. -/
def RelLive (a b : SjsonCtx) : Prop :=
  Rel a b ∧ a.finalized = false ∧ b.finalized = false

/-- The field equations packed in an `absOf` equality. -/
theorem abs_fields {a b : SjsonCtx} (h : absOf a = absOf b) :
    outOf a = outOf b ∧ a.depth = b.depth ∧ a.depthStack = b.depthStack ∧
    a.maxDepth = b.maxDepth ∧ a.needsComma = b.needsComma ∧
    a.finalized = b.finalized := by
  simp only [absOf, Prod.mk.injEq] at h
  exact h

/-- With an accepting sink a `write` on a reachable context succeeds,
appends the data to the byte stream, and keeps the buffer short. -/
theorem write_ok (ctx : SjsonCtx) (data : List Nat)
    (h1 : 1 ≤ ctx.bufferSize) (h2 : ctx.buf.length ≤ ctx.bufferSize) :
    (write acceptAll ctx data).1 = SjsonStatus.ok ∧
    outOf (write acceptAll ctx data).2 = outOf ctx ++ data ∧
    (write acceptAll ctx data).2.buf.length < ctx.bufferSize := by
  unfold write
  split
  · have hfl := flush_acceptAll ctx
    simp only []
    rw [if_neg (by simp [hfl.1])]
    have hbs : (sjson_Flush acceptAll ctx).2.bufferSize = ctx.bufferSize :=
      (frame_fields (sjson_Flush_frame acceptAll ctx)).2.2.2.2.2
    obtain ⟨w1, w2, w3⟩ := writeLoop_acceptAll (data.length + 1)
      (sjson_Flush acceptAll ctx).2 data (by omega)
      (by rw [hfl.2.2, hbs]; simp; omega)
    refine ⟨w1, ?_, lt_of_lt_of_eq w3 hbs⟩
    unfold outOf
    rw [w2, hfl.2.1, hfl.2.2]
    simp [List.append_assoc]
  · rename_i hne
    obtain ⟨w1, w2, w3⟩ := writeLoop_acceptAll (data.length + 1) ctx data
      (by omega) (by simp only [beq_iff_eq] at hne; omega)
    refine ⟨w1, ?_, w3⟩
    unfold outOf
    rw [w2, List.append_assoc]

/-- `write_ok` at the invariant level. -/
theorem write_goodCtx (ctx : SjsonCtx) (data : List Nat) (hg : goodCtx ctx)
    (hf : ctx.finalized = false) :
    (write acceptAll ctx data).1 = SjsonStatus.ok ∧
    outOf (write acceptAll ctx data).2 = outOf ctx ++ data ∧
    goodCtx (write acceptAll ctx data).2 := by
  obtain ⟨hb1, hb2, hb3⟩ := hg
  obtain ⟨w1, w2, w3⟩ := write_ok ctx data hb1 hb2
  have hbs := write_bufferSize acceptAll ctx data
  have hfin := write_finalized acceptAll ctx data
  refine ⟨w1, w2, by omega, by omega, ?_⟩
  intro h
  rw [hfin, hf] at h
  cases h


/-- Discharge the `status != SJSON_OK` early-exit guards. -/
theorem not_ne_ok {s : SjsonStatus} (h : s = SjsonStatus.ok) :
    ¬ s ≠ SjsonStatus.ok := fun hn => hn h

/-- `write` moves the two runs in lockstep. -/
theorem write_sim {a b : SjsonCtx} (data : List Nat) (h : RelLive a b) :
    (write acceptAll a data).1 = SjsonStatus.ok ∧
    (write acceptAll b data).1 = SjsonStatus.ok ∧
    RelLive (write acceptAll a data).2 (write acceptAll b data).2 := by
  obtain ⟨⟨hga, hgb, habs⟩, hfa, hfb⟩ := h
  obtain ⟨w1a, w2a, w3a⟩ := write_goodCtx a data hga hfa
  obtain ⟨w1b, w2b, w3b⟩ := write_goodCtx b data hgb hfb
  have hfra := frame_fields (write_frame acceptAll a data)
  have hfrb := frame_fields (write_frame acceptAll b data)
  obtain ⟨e1, e2, e3, e4, e5, e6⟩ := abs_fields habs
  refine ⟨w1a, w1b, ⟨w3a, w3b, ?_⟩, ?_, ?_⟩
  · simp only [absOf, Prod.mk.injEq]
    exact ⟨by rw [w2a, w2b, e1], by rw [hfra.1, hfrb.1]; exact e2,
      by rw [hfra.2.1, hfrb.2.1]; exact e3,
      by rw [hfra.2.2.1, hfrb.2.2.1]; exact e4,
      by rw [hfra.2.2.2.1, hfrb.2.2.2.1]; exact e5,
      by rw [hfra.2.2.2.2.1, hfrb.2.2.2.2.1]; exact e6⟩
  · rw [hfra.2.2.2.2.1]; exact hfa
  · rw [hfrb.2.2.2.2.1]; exact hfb

/-- With an accepting sink `add_comma_if_needed` succeeds; it appends the
comma the flags call for and marks the current depth. -/
theorem addComma_ok (ctx : SjsonCtx) (hg : goodCtx ctx)
    (hf : ctx.finalized = false) :
    (addCommaIfNeeded acceptAll ctx).1 = SjsonStatus.ok ∧
    outOf (addCommaIfNeeded acceptAll ctx).2 =
      outOf ctx ++ (if ctx.needsComma.getD ctx.depth false then [44] else []) ∧
    goodCtx (addCommaIfNeeded acceptAll ctx).2 ∧
    (addCommaIfNeeded acceptAll ctx).2.needsComma =
      ctx.needsComma.set ctx.depth true := by
  obtain ⟨w1, w2, w3⟩ := write_goodCtx ctx [44] hg hf
  have hfr := frame_fields (write_frame acceptAll ctx [44])
  unfold addCommaIfNeeded
  simp only []
  split
  · rename_i hc
    rw [if_neg (by simp [w1])]
    refine ⟨rfl, w2, w3, ?_⟩
    show (write acceptAll ctx [44]).2.needsComma.set
        (write acceptAll ctx [44]).2.depth true = _
    rw [hfr.1, hfr.2.2.2.1]
  · rename_i hc
    exact ⟨rfl, by unfold outOf; simp, hg, rfl⟩

/-- `add_comma_if_needed` moves the two runs in lockstep. -/
theorem comma_sim {a b : SjsonCtx} (h : RelLive a b) :
    (addCommaIfNeeded acceptAll a).1 = SjsonStatus.ok ∧
    (addCommaIfNeeded acceptAll b).1 = SjsonStatus.ok ∧
    RelLive (addCommaIfNeeded acceptAll a).2 (addCommaIfNeeded acceptAll b).2 := by
  obtain ⟨⟨hga, hgb, habs⟩, hfa, hfb⟩ := h
  obtain ⟨c1a, c2a, c3a, c4a⟩ := addComma_ok a hga hfa
  obtain ⟨c1b, c2b, c3b, c4b⟩ := addComma_ok b hgb hfb
  have hfra := addComma_fields acceptAll a
  have hfrb := addComma_fields acceptAll b
  obtain ⟨e1, e2, e3, e4, e5, e6⟩ := abs_fields habs
  refine ⟨c1a, c1b, ⟨c3a, c3b, ?_⟩, ?_, ?_⟩
  · simp only [absOf, Prod.mk.injEq]
    refine ⟨?_, by rw [hfra.1, hfrb.1]; exact e2,
      by rw [hfra.2.1, hfrb.2.1]; exact e3,
      by rw [hfra.2.2.1, hfrb.2.2.1]; exact e4,
      by rw [c4a, c4b, e5, e2], ?_⟩
    · rw [c2a, c2b, e1, e5, e2]
    · rw [hfra.2.2.2.1, hfrb.2.2.2.1]; exact e6
  · rw [hfra.2.2.2.1]; exact hfa
  · rw [hfrb.2.2.2.1]; exact hfb

/-- `check_object_state` only looks at abstracted fields. -/
theorem checkObjectState_congr {a b : SjsonCtx} (h : absOf a = absOf b) :
    checkObjectState a = checkObjectState b := by
  obtain ⟨-, e2, e3, -, -, e6⟩ := abs_fields h
  unfold checkObjectState
  rw [e2, e3, e6]

/-- `check_array_state` only looks at abstracted fields. -/
theorem checkArrayState_congr {a b : SjsonCtx} (h : absOf a = absOf b) :
    checkArrayState a = checkArrayState b := by
  obtain ⟨-, e2, e3, -, -, e6⟩ := abs_fields h
  unfold checkArrayState
  rw [e2, e3, e6]

/-- A passing object-state check means the context is not finalized. -/
theorem checkObjectState_ok_finalized {c : SjsonCtx}
    (h : checkObjectState c = SjsonStatus.ok) : c.finalized = false := by
  by_cases hf : c.finalized = true
  · exfalso
    unfold checkObjectState at h
    rw [if_pos hf] at h
    cases h
  · simpa using hf

/-- A passing array-state check means the context is not finalized. -/
theorem checkArrayState_ok_finalized {c : SjsonCtx}
    (h : checkArrayState c = SjsonStatus.ok) : c.finalized = false := by
  by_cases hf : c.finalized = true
  · exfalso
    unfold checkArrayState at h
    rw [if_pos hf] at h
    cases h
  · simpa using hf

/-- The shape shared by the scalar-member writers
(`sjson_Add{String,Int,Float}ToObject`, `sjson_Add{Int,Float}ToArray`):
state check, comma, `snprintf`-truncation guard, one `write`. -/
def memberAdd (useObj : Bool) (limit : Nat) (formatted : List Nat)
    (sink : Nat → Bool) (ctx : SjsonCtx) : SjsonStatus × SjsonCtx :=
  let s := if useObj then checkObjectState ctx else checkArrayState ctx
  if s ≠ SjsonStatus.ok then (s, ctx)
  else
    let rc := addCommaIfNeeded sink ctx
    if rc.1 ≠ SjsonStatus.ok then rc
    else
      if formatted.length ≥ limit then (.bufferFull, rc.2)
      else write sink rc.2 formatted

theorem addStringToObject_eq (sink : Nat → Bool) (ctx : SjsonCtx)
    (key value : List Nat) :
    sjson_AddStringToObject sink ctx key value =
      memberAdd true 256 (34 :: key ++ [34, 58, 34] ++ value ++ [34]) sink ctx := rfl

theorem addIntToObject_eq (sink : Nat → Bool) (ctx : SjsonCtx)
    (key : List Nat) (value : Int) :
    sjson_AddIntToObject sink ctx key value =
      memberAdd true 128 (34 :: key ++ [34, 58] ++ intToAscii value) sink ctx := rfl

theorem addFloatToObject_eq (sink : Nat → Bool) (ctx : SjsonCtx)
    (key rendered : List Nat) :
    sjson_AddFloatToObject sink ctx key rendered =
      memberAdd true 128 (34 :: key ++ [34, 58] ++ rendered) sink ctx := rfl

theorem addIntToArray_eq (sink : Nat → Bool) (ctx : SjsonCtx) (value : Int) :
    sjson_AddIntToArray sink ctx value =
      memberAdd false 32 (intToAscii value) sink ctx := rfl

theorem addFloatToArray_eq (sink : Nat → Bool) (ctx : SjsonCtx)
    (rendered : List Nat) :
    sjson_AddFloatToArray sink ctx rendered =
      memberAdd false 32 rendered sink ctx := rfl

/-- A passing check (of either kind) means the context is not finalized. -/
theorem check_ite_ok_finalized {c : SjsonCtx} {useObj : Bool}
    (h : (if useObj then checkObjectState c else checkArrayState c) =
      SjsonStatus.ok) : c.finalized = false := by
  cases useObj
  · exact checkArrayState_ok_finalized h
  · exact checkObjectState_ok_finalized h

/-- The scalar-member shape moves the two runs in lockstep. -/
theorem memberAdd_sim (useObj : Bool) (limit : Nat) (formatted : List Nat)
    {a b : SjsonCtx} (h : Rel a b) :
    (memberAdd useObj limit formatted acceptAll a).1 =
      (memberAdd useObj limit formatted acceptAll b).1 ∧
    Rel (memberAdd useObj limit formatted acceptAll a).2
      (memberAdd useObj limit formatted acceptAll b).2 := by
  obtain ⟨hga, hgb, habs⟩ := h
  have hchk : (if useObj then checkObjectState a else checkArrayState a) =
      (if useObj then checkObjectState b else checkArrayState b) := by
    cases useObj
    · exact checkArrayState_congr habs
    · exact checkObjectState_congr habs
  by_cases hok : (if useObj then checkObjectState b else checkArrayState b) =
      SjsonStatus.ok
  · have hfb : b.finalized = false := check_ite_ok_finalized hok
    have hfa : a.finalized = false := by
      rw [(abs_fields habs).2.2.2.2.2]; exact hfb
    obtain ⟨c1, c2, hRL⟩ := comma_sim ⟨⟨hga, hgb, habs⟩, hfa, hfb⟩
    have ea : memberAdd useObj limit formatted acceptAll a =
        if formatted.length ≥ limit then
          (SjsonStatus.bufferFull, (addCommaIfNeeded acceptAll a).2)
        else write acceptAll (addCommaIfNeeded acceptAll a).2 formatted := by
      unfold memberAdd
      simp only []
      rw [hchk, if_neg (not_ne_ok hok), if_neg (not_ne_ok c1)]
    have eb : memberAdd useObj limit formatted acceptAll b =
        if formatted.length ≥ limit then
          (SjsonStatus.bufferFull, (addCommaIfNeeded acceptAll b).2)
        else write acceptAll (addCommaIfNeeded acceptAll b).2 formatted := by
      unfold memberAdd
      simp only []
      rw [if_neg (not_ne_ok hok), if_neg (not_ne_ok c2)]
    rw [ea, eb]
    by_cases hlim : formatted.length ≥ limit
    · rw [if_pos hlim, if_pos hlim]
      exact ⟨rfl, hRL.1⟩
    · rw [if_neg hlim, if_neg hlim]
      obtain ⟨w1, w2, hRL2⟩ := write_sim formatted hRL
      exact ⟨by rw [w1, w2], hRL2.1⟩
  · have ea : memberAdd useObj limit formatted acceptAll a =
        ((if useObj then checkObjectState b else checkArrayState b), a) := by
      unfold memberAdd
      simp only []
      rw [hchk, if_pos hok]
    have eb : memberAdd useObj limit formatted acceptAll b =
        ((if useObj then checkObjectState b else checkArrayState b), b) := by
      unfold memberAdd
      simp only []
      rw [if_pos hok]
    rw [ea, eb]
    exact ⟨rfl, hga, hgb, habs⟩

/-- Pushing a nesting frame (the common tail of `sjson_Init*` and the
nested-open writers) keeps the two runs in lockstep. -/
theorem push_rel {a b : SjsonCtx} (h : RelLive a b) (tok : Nat) :
    Rel
      { a with depthStack := a.depthStack.set a.depth tok,
               depth := a.depth + 1,
               needsComma := a.needsComma.set (a.depth + 1) false }
      { b with depthStack := b.depthStack.set b.depth tok,
               depth := b.depth + 1,
               needsComma := b.needsComma.set (b.depth + 1) false } := by
  obtain ⟨⟨hga, hgb, habs⟩, hfa, hfb⟩ := h
  obtain ⟨e1, e2, e3, e4, e5, e6⟩ := abs_fields habs
  refine ⟨?_, ?_, ?_⟩
  · exact ⟨hga.1, hga.2.1, by intro hx; rw [hfa] at hx; cases hx⟩
  · exact ⟨hgb.1, hgb.2.1, by intro hx; rw [hfb] at hx; cases hx⟩
  · simp only [absOf, outOf, Prod.mk.injEq]
    refine ⟨e1, by rw [e2], by rw [e2, e3], e4, by rw [e2, e5], e6⟩

/-- `sjson_AddRawToObject` moves the two runs in lockstep. -/
theorem addRaw_sim (key value : List Nat) {a b : SjsonCtx} (h : Rel a b) :
    (sjson_AddRawToObject acceptAll a key value).1 =
      (sjson_AddRawToObject acceptAll b key value).1 ∧
    Rel (sjson_AddRawToObject acceptAll a key value).2
      (sjson_AddRawToObject acceptAll b key value).2 := by
  obtain ⟨hga, hgb, habs⟩ := h
  have hchk := checkObjectState_congr habs
  by_cases hok : checkObjectState b = SjsonStatus.ok
  · have hfb := checkObjectState_ok_finalized hok
    have hfa : a.finalized = false := by
      rw [(abs_fields habs).2.2.2.2.2]; exact hfb
    obtain ⟨c1, c2, hRL⟩ := comma_sim ⟨⟨hga, hgb, habs⟩, hfa, hfb⟩
    obtain ⟨p1a, p1b, hRL1⟩ := write_sim [34] hRL
    obtain ⟨p2a, p2b, hRL2⟩ := write_sim key hRL1
    obtain ⟨p3a, p3b, hRL3⟩ := write_sim [34, 58] hRL2
    obtain ⟨p4a, p4b, hRL4⟩ := write_sim value hRL3
    have ea : sjson_AddRawToObject acceptAll a key value =
        write acceptAll (write acceptAll (write acceptAll (write acceptAll
          (addCommaIfNeeded acceptAll a).2 [34]).2 key).2 [34, 58]).2 value := by
      unfold sjson_AddRawToObject
      simp only []
      rw [hchk, if_neg (not_ne_ok hok), if_neg (not_ne_ok c1),
        if_neg (not_ne_ok p1a), if_neg (not_ne_ok p2a), if_neg (not_ne_ok p3a)]
    have eb : sjson_AddRawToObject acceptAll b key value =
        write acceptAll (write acceptAll (write acceptAll (write acceptAll
          (addCommaIfNeeded acceptAll b).2 [34]).2 key).2 [34, 58]).2 value := by
      unfold sjson_AddRawToObject
      simp only []
      rw [if_neg (not_ne_ok hok), if_neg (not_ne_ok c2),
        if_neg (not_ne_ok p1b), if_neg (not_ne_ok p2b), if_neg (not_ne_ok p3b)]
    rw [ea, eb]
    exact ⟨by rw [p4a, p4b], hRL4.1⟩
  · have ea : sjson_AddRawToObject acceptAll a key value =
        (checkObjectState b, a) := by
      unfold sjson_AddRawToObject
      simp only []
      rw [hchk, if_pos hok]
    have eb : sjson_AddRawToObject acceptAll b key value =
        (checkObjectState b, b) := by
      unfold sjson_AddRawToObject
      simp only []
      rw [if_pos hok]
    rw [ea, eb]
    exact ⟨rfl, hga, hgb, habs⟩

/-- `sjson_AddStringToArray` moves the two runs in lockstep. -/
theorem addStringToArray_sim (value : List Nat) {a b : SjsonCtx} (h : Rel a b) :
    (sjson_AddStringToArray acceptAll a value).1 =
      (sjson_AddStringToArray acceptAll b value).1 ∧
    Rel (sjson_AddStringToArray acceptAll a value).2
      (sjson_AddStringToArray acceptAll b value).2 := by
  obtain ⟨hga, hgb, habs⟩ := h
  have hchk := checkArrayState_congr habs
  by_cases hok : checkArrayState b = SjsonStatus.ok
  · have hfb := checkArrayState_ok_finalized hok
    have hfa : a.finalized = false := by
      rw [(abs_fields habs).2.2.2.2.2]; exact hfb
    obtain ⟨c1, c2, hRL⟩ := comma_sim ⟨⟨hga, hgb, habs⟩, hfa, hfb⟩
    obtain ⟨p1a, p1b, hRL1⟩ := write_sim [34] hRL
    obtain ⟨p2a, p2b, hRL2⟩ := write_sim value hRL1
    obtain ⟨p3a, p3b, hRL3⟩ := write_sim [34] hRL2
    have ea : sjson_AddStringToArray acceptAll a value =
        write acceptAll (write acceptAll (write acceptAll
          (addCommaIfNeeded acceptAll a).2 [34]).2 value).2 [34] := by
      unfold sjson_AddStringToArray
      simp only []
      rw [hchk, if_neg (not_ne_ok hok), if_neg (not_ne_ok c1),
        if_neg (not_ne_ok p1a), if_neg (not_ne_ok p2a)]
    have eb : sjson_AddStringToArray acceptAll b value =
        write acceptAll (write acceptAll (write acceptAll
          (addCommaIfNeeded acceptAll b).2 [34]).2 value).2 [34] := by
      unfold sjson_AddStringToArray
      simp only []
      rw [if_neg (not_ne_ok hok), if_neg (not_ne_ok c2),
        if_neg (not_ne_ok p1b), if_neg (not_ne_ok p2b)]
    rw [ea, eb]
    exact ⟨by rw [p3a, p3b], hRL3.1⟩
  · have ea : sjson_AddStringToArray acceptAll a value =
        (checkArrayState b, a) := by
      unfold sjson_AddStringToArray
      simp only []
      rw [hchk, if_pos hok]
    have eb : sjson_AddStringToArray acceptAll b value =
        (checkArrayState b, b) := by
      unfold sjson_AddStringToArray
      simp only []
      rw [if_pos hok]
    rw [ea, eb]
    exact ⟨rfl, hga, hgb, habs⟩

/-- `sjson_AddObjectToObject` moves the two runs in lockstep. -/
theorem addObjectToObject_sim (key : List Nat) {a b : SjsonCtx} (h : Rel a b) :
    (sjson_AddObjectToObject acceptAll a key).1 =
      (sjson_AddObjectToObject acceptAll b key).1 ∧
    Rel (sjson_AddObjectToObject acceptAll a key).2
      (sjson_AddObjectToObject acceptAll b key).2 := by
  obtain ⟨hga, hgb, habs⟩ := h
  obtain ⟨e1, e2, e3, e4, e5, e6⟩ := abs_fields habs
  have hchk := checkObjectState_congr habs
  by_cases hok : checkObjectState b = SjsonStatus.ok
  · have hfb := checkObjectState_ok_finalized hok
    have hfa : a.finalized = false := by rw [e6]; exact hfb
    by_cases hdep : b.depth ≥ b.maxDepth
    · have hdepa : a.depth ≥ a.maxDepth := by rw [e2, e4]; exact hdep
      have ea : sjson_AddObjectToObject acceptAll a key =
          (SjsonStatus.maxDepth, a) := by
        unfold sjson_AddObjectToObject
        simp only []
        rw [hchk, if_neg (not_ne_ok hok), if_pos hdepa]
      have eb : sjson_AddObjectToObject acceptAll b key =
          (SjsonStatus.maxDepth, b) := by
        unfold sjson_AddObjectToObject
        simp only []
        rw [if_neg (not_ne_ok hok), if_pos hdep]
      rw [ea, eb]
      exact ⟨rfl, hga, hgb, habs⟩
    · have hdepa : ¬ a.depth ≥ a.maxDepth := by rw [e2, e4]; exact hdep
      obtain ⟨c1, c2, hRL⟩ := comma_sim ⟨⟨hga, hgb, habs⟩, hfa, hfb⟩
      by_cases hlim : (34 :: key ++ [34, 58, 123]).length ≥ 128
      · have ea : sjson_AddObjectToObject acceptAll a key =
            (SjsonStatus.bufferFull, (addCommaIfNeeded acceptAll a).2) := by
          unfold sjson_AddObjectToObject
          simp only []
          rw [hchk, if_neg (not_ne_ok hok), if_neg hdepa,
            if_neg (not_ne_ok c1), if_pos hlim]
        have eb : sjson_AddObjectToObject acceptAll b key =
            (SjsonStatus.bufferFull, (addCommaIfNeeded acceptAll b).2) := by
          unfold sjson_AddObjectToObject
          simp only []
          rw [if_neg (not_ne_ok hok), if_neg hdep,
            if_neg (not_ne_ok c2), if_pos hlim]
        rw [ea, eb]
        exact ⟨rfl, hRL.1⟩
      · obtain ⟨w1, w2, hRL2⟩ := write_sim (34 :: key ++ [34, 58, 123]) hRL
        have ea : sjson_AddObjectToObject acceptAll a key =
            (SjsonStatus.ok,
             { (write acceptAll (addCommaIfNeeded acceptAll a).2
                  (34 :: key ++ [34, 58, 123])).2 with
               depthStack := (write acceptAll (addCommaIfNeeded acceptAll a).2
                  (34 :: key ++ [34, 58, 123])).2.depthStack.set
                    (write acceptAll (addCommaIfNeeded acceptAll a).2
                      (34 :: key ++ [34, 58, 123])).2.depth 125,
               depth := (write acceptAll (addCommaIfNeeded acceptAll a).2
                  (34 :: key ++ [34, 58, 123])).2.depth + 1,
               needsComma := (write acceptAll (addCommaIfNeeded acceptAll a).2
                  (34 :: key ++ [34, 58, 123])).2.needsComma.set
                    ((write acceptAll (addCommaIfNeeded acceptAll a).2
                      (34 :: key ++ [34, 58, 123])).2.depth + 1) false }) := by
          unfold sjson_AddObjectToObject
          simp only []
          rw [hchk, if_neg (not_ne_ok hok), if_neg hdepa,
            if_neg (not_ne_ok c1), if_neg hlim, if_neg (not_ne_ok w1)]
        have eb : sjson_AddObjectToObject acceptAll b key =
            (SjsonStatus.ok,
             { (write acceptAll (addCommaIfNeeded acceptAll b).2
                  (34 :: key ++ [34, 58, 123])).2 with
               depthStack := (write acceptAll (addCommaIfNeeded acceptAll b).2
                  (34 :: key ++ [34, 58, 123])).2.depthStack.set
                    (write acceptAll (addCommaIfNeeded acceptAll b).2
                      (34 :: key ++ [34, 58, 123])).2.depth 125,
               depth := (write acceptAll (addCommaIfNeeded acceptAll b).2
                  (34 :: key ++ [34, 58, 123])).2.depth + 1,
               needsComma := (write acceptAll (addCommaIfNeeded acceptAll b).2
                  (34 :: key ++ [34, 58, 123])).2.needsComma.set
                    ((write acceptAll (addCommaIfNeeded acceptAll b).2
                      (34 :: key ++ [34, 58, 123])).2.depth + 1) false }) := by
          unfold sjson_AddObjectToObject
          simp only []
          rw [if_neg (not_ne_ok hok), if_neg hdep,
            if_neg (not_ne_ok c2), if_neg hlim, if_neg (not_ne_ok w2)]
        rw [ea, eb]
        exact ⟨rfl, push_rel hRL2 125⟩
  · have ea : sjson_AddObjectToObject acceptAll a key =
        (checkObjectState b, a) := by
      unfold sjson_AddObjectToObject
      simp only []
      rw [hchk, if_pos hok]
    have eb : sjson_AddObjectToObject acceptAll b key =
        (checkObjectState b, b) := by
      unfold sjson_AddObjectToObject
      simp only []
      rw [if_pos hok]
    rw [ea, eb]
    exact ⟨rfl, hga, hgb, habs⟩

/-- `sjson_AddArrayToObject` moves the two runs in lockstep. -/
theorem addArrayToObject_sim (key : List Nat) {a b : SjsonCtx} (h : Rel a b) :
    (sjson_AddArrayToObject acceptAll a key).1 =
      (sjson_AddArrayToObject acceptAll b key).1 ∧
    Rel (sjson_AddArrayToObject acceptAll a key).2
      (sjson_AddArrayToObject acceptAll b key).2 := by
  obtain ⟨hga, hgb, habs⟩ := h
  obtain ⟨e1, e2, e3, e4, e5, e6⟩ := abs_fields habs
  have hchk := checkObjectState_congr habs
  by_cases hkey : (key.length == 0 || key.length > 128) = true
  · have ea : sjson_AddArrayToObject acceptAll a key =
        (SjsonStatus.invalidParam, a) := by
      unfold sjson_AddArrayToObject
      rw [if_pos hkey]
    have eb : sjson_AddArrayToObject acceptAll b key =
        (SjsonStatus.invalidParam, b) := by
      unfold sjson_AddArrayToObject
      rw [if_pos hkey]
    rw [ea, eb]
    exact ⟨rfl, hga, hgb, habs⟩
  · by_cases hok : checkObjectState b = SjsonStatus.ok
    · have hfb := checkObjectState_ok_finalized hok
      have hfa : a.finalized = false := by rw [e6]; exact hfb
      by_cases hdep : b.depth ≥ b.maxDepth
      · have hdepa : a.depth ≥ a.maxDepth := by rw [e2, e4]; exact hdep
        have ea : sjson_AddArrayToObject acceptAll a key =
            (SjsonStatus.maxDepth, a) := by
          unfold sjson_AddArrayToObject
          simp only []
          rw [if_neg hkey, if_neg (not_ne_ok (hchk.trans hok)), if_pos hdepa]
        have eb : sjson_AddArrayToObject acceptAll b key =
            (SjsonStatus.maxDepth, b) := by
          unfold sjson_AddArrayToObject
          simp only []
          rw [if_neg hkey, if_neg (not_ne_ok hok), if_pos hdep]
        rw [ea, eb]
        exact ⟨rfl, hga, hgb, habs⟩
      · have hdepa : ¬ a.depth ≥ a.maxDepth := by rw [e2, e4]; exact hdep
        obtain ⟨c1, c2, hRL⟩ := comma_sim ⟨⟨hga, hgb, habs⟩, hfa, hfb⟩
        by_cases hlim : (34 :: key ++ [34, 58, 91]).length ≥ 133
        · have ea : sjson_AddArrayToObject acceptAll a key =
              (SjsonStatus.bufferFull, (addCommaIfNeeded acceptAll a).2) := by
            unfold sjson_AddArrayToObject
            simp only []
            rw [if_neg hkey, if_neg (not_ne_ok (hchk.trans hok)), if_neg hdepa,
              if_neg (not_ne_ok c1), if_pos hlim]
          have eb : sjson_AddArrayToObject acceptAll b key =
              (SjsonStatus.bufferFull, (addCommaIfNeeded acceptAll b).2) := by
            unfold sjson_AddArrayToObject
            simp only []
            rw [if_neg hkey, if_neg (not_ne_ok hok), if_neg hdep,
              if_neg (not_ne_ok c2), if_pos hlim]
          rw [ea, eb]
          exact ⟨rfl, hRL.1⟩
        · obtain ⟨w1, w2, hRL2⟩ := write_sim (34 :: key ++ [34, 58, 91]) hRL
          have ea : sjson_AddArrayToObject acceptAll a key =
              (SjsonStatus.ok,
               { (write acceptAll (addCommaIfNeeded acceptAll a).2
                    (34 :: key ++ [34, 58, 91])).2 with
                 depthStack := (write acceptAll (addCommaIfNeeded acceptAll a).2
                    (34 :: key ++ [34, 58, 91])).2.depthStack.set
                      (write acceptAll (addCommaIfNeeded acceptAll a).2
                        (34 :: key ++ [34, 58, 91])).2.depth 93,
                 depth := (write acceptAll (addCommaIfNeeded acceptAll a).2
                    (34 :: key ++ [34, 58, 91])).2.depth + 1,
                 needsComma := (write acceptAll (addCommaIfNeeded acceptAll a).2
                    (34 :: key ++ [34, 58, 91])).2.needsComma.set
                      ((write acceptAll (addCommaIfNeeded acceptAll a).2
                        (34 :: key ++ [34, 58, 91])).2.depth + 1) false }) := by
            unfold sjson_AddArrayToObject
            simp only []
            rw [if_neg hkey, if_neg (not_ne_ok (hchk.trans hok)), if_neg hdepa,
              if_neg (not_ne_ok c1), if_neg hlim, if_neg (not_ne_ok w1)]
          have eb : sjson_AddArrayToObject acceptAll b key =
              (SjsonStatus.ok,
               { (write acceptAll (addCommaIfNeeded acceptAll b).2
                    (34 :: key ++ [34, 58, 91])).2 with
                 depthStack := (write acceptAll (addCommaIfNeeded acceptAll b).2
                    (34 :: key ++ [34, 58, 91])).2.depthStack.set
                      (write acceptAll (addCommaIfNeeded acceptAll b).2
                        (34 :: key ++ [34, 58, 91])).2.depth 93,
                 depth := (write acceptAll (addCommaIfNeeded acceptAll b).2
                    (34 :: key ++ [34, 58, 91])).2.depth + 1,
                 needsComma := (write acceptAll (addCommaIfNeeded acceptAll b).2
                    (34 :: key ++ [34, 58, 91])).2.needsComma.set
                      ((write acceptAll (addCommaIfNeeded acceptAll b).2
                        (34 :: key ++ [34, 58, 91])).2.depth + 1) false }) := by
            unfold sjson_AddArrayToObject
            simp only []
            rw [if_neg hkey, if_neg (not_ne_ok hok), if_neg hdep,
              if_neg (not_ne_ok c2), if_neg hlim, if_neg (not_ne_ok w2)]
          rw [ea, eb]
          exact ⟨rfl, push_rel hRL2 93⟩
    · have ea : sjson_AddArrayToObject acceptAll a key =
          (checkObjectState b, a) := by
        unfold sjson_AddArrayToObject
        simp only []
        rw [if_neg hkey, hchk, if_pos hok]
      have eb : sjson_AddArrayToObject acceptAll b key =
          (checkObjectState b, b) := by
        unfold sjson_AddArrayToObject
        simp only []
        rw [if_neg hkey, if_pos hok]
      rw [ea, eb]
      exact ⟨rfl, hga, hgb, habs⟩

/-- The element loop of the float-array writer keeps the runs in lockstep
(the loop exits leave `finalized` untouched). -/
theorem addFloatArrayLoop_sim :
    ∀ (rendered : List (List Nat)) (first : Bool) {a b : SjsonCtx},
      RelLive a b →
      (addFloatArrayLoop acceptAll a rendered first).1 =
        (addFloatArrayLoop acceptAll b rendered first).1 ∧
      RelLive (addFloatArrayLoop acceptAll a rendered first).2
        (addFloatArrayLoop acceptAll b rendered first).2 := by
  intro rendered
  induction rendered with
  | nil => intro first a b h; exact ⟨rfl, h⟩
  | cons v rest ih =>
      intro first a b h
      unfold addFloatArrayLoop
      simp only []
      by_cases hlim : ((if first then [] else [44]) ++ v).length ≥ 32
      · rw [if_pos hlim, if_pos hlim]
        exact ⟨rfl, h⟩
      · rw [if_neg hlim, if_neg hlim]
        obtain ⟨w1, w2, hRL⟩ := write_sim ((if first then [] else [44]) ++ v) h
        rw [if_neg (not_ne_ok w1), if_neg (not_ne_ok w2)]
        exact ih false hRL

/-- The integer element loop is the float element loop on the decimal
renderings. -/
theorem addIntArrayLoop_eq_float :
    ∀ (values : List Int) (sink : Nat → Bool) (ctx : SjsonCtx) (first : Bool),
      addIntArrayLoop sink ctx values first =
        addFloatArrayLoop sink ctx (values.map intToAscii) first := by
  intro values
  induction values with
  | nil => intro sink ctx first; rfl
  | cons v rest ih =>
      intro sink ctx first
      unfold addIntArrayLoop addFloatArrayLoop
      simp only [List.map_cons]
      simp only [ih]

/-- `sjson_AddIntArrayToObject` is `sjson_AddFloatArrayToObject` on the
decimal renderings of the elements. -/
theorem addIntArray_eq_floatArray (sink : Nat → Bool) (ctx : SjsonCtx)
    (key : List Nat) (values : List Int) :
    sjson_AddIntArrayToObject sink ctx key values =
      sjson_AddFloatArrayToObject sink ctx key (values.map intToAscii) := by
  unfold sjson_AddIntArrayToObject sjson_AddFloatArrayToObject
  simp only [addIntArrayLoop_eq_float]

/-- `sjson_AddFloatArrayToObject` moves the two runs in lockstep. -/
theorem addFloatArray_sim (key : List Nat) (rendered : List (List Nat))
    {a b : SjsonCtx} (h : Rel a b) :
    (sjson_AddFloatArrayToObject acceptAll a key rendered).1 =
      (sjson_AddFloatArrayToObject acceptAll b key rendered).1 ∧
    Rel (sjson_AddFloatArrayToObject acceptAll a key rendered).2
      (sjson_AddFloatArrayToObject acceptAll b key rendered).2 := by
  obtain ⟨hga, hgb, habs⟩ := h
  have hchk := checkObjectState_congr habs
  by_cases hok : checkObjectState b = SjsonStatus.ok
  · have hfb := checkObjectState_ok_finalized hok
    have hfa : a.finalized = false := by
      rw [(abs_fields habs).2.2.2.2.2]; exact hfb
    obtain ⟨c1, c2, hRL⟩ := comma_sim ⟨⟨hga, hgb, habs⟩, hfa, hfb⟩
    by_cases hlim : (34 :: key ++ [34, 58, 91]).length ≥ 64
    · have ea : sjson_AddFloatArrayToObject acceptAll a key rendered =
          (SjsonStatus.bufferFull, (addCommaIfNeeded acceptAll a).2) := by
        unfold sjson_AddFloatArrayToObject
        simp only []
        rw [hchk, if_neg (not_ne_ok hok), if_neg (not_ne_ok c1), if_pos hlim]
      have eb : sjson_AddFloatArrayToObject acceptAll b key rendered =
          (SjsonStatus.bufferFull, (addCommaIfNeeded acceptAll b).2) := by
        unfold sjson_AddFloatArrayToObject
        simp only []
        rw [if_neg (not_ne_ok hok), if_neg (not_ne_ok c2), if_pos hlim]
      rw [ea, eb]
      exact ⟨rfl, hRL.1⟩
    · obtain ⟨w1, w2, hRL2⟩ := write_sim (34 :: key ++ [34, 58, 91]) hRL
      obtain ⟨l1, hRL3⟩ := addFloatArrayLoop_sim rendered true hRL2
      have ea : sjson_AddFloatArrayToObject acceptAll a key rendered =
          (if (addFloatArrayLoop acceptAll (write acceptAll
                (addCommaIfNeeded acceptAll a).2 (34 :: key ++ [34, 58, 91])).2
                rendered true).1 ≠ SjsonStatus.ok
           then addFloatArrayLoop acceptAll (write acceptAll
                (addCommaIfNeeded acceptAll a).2 (34 :: key ++ [34, 58, 91])).2
                rendered true
           else write acceptAll (addFloatArrayLoop acceptAll (write acceptAll
                (addCommaIfNeeded acceptAll a).2 (34 :: key ++ [34, 58, 91])).2
                rendered true).2 [93]) := by
        unfold sjson_AddFloatArrayToObject
        simp only []
        rw [hchk, if_neg (not_ne_ok hok), if_neg (not_ne_ok c1), if_neg hlim,
          if_neg (not_ne_ok w1)]
      have eb : sjson_AddFloatArrayToObject acceptAll b key rendered =
          (if (addFloatArrayLoop acceptAll (write acceptAll
                (addCommaIfNeeded acceptAll b).2 (34 :: key ++ [34, 58, 91])).2
                rendered true).1 ≠ SjsonStatus.ok
           then addFloatArrayLoop acceptAll (write acceptAll
                (addCommaIfNeeded acceptAll b).2 (34 :: key ++ [34, 58, 91])).2
                rendered true
           else write acceptAll (addFloatArrayLoop acceptAll (write acceptAll
                (addCommaIfNeeded acceptAll b).2 (34 :: key ++ [34, 58, 91])).2
                rendered true).2 [93]) := by
        unfold sjson_AddFloatArrayToObject
        simp only []
        rw [if_neg (not_ne_ok hok), if_neg (not_ne_ok c2), if_neg hlim,
          if_neg (not_ne_ok w2)]
      rw [ea, eb]
      by_cases hloop : (addFloatArrayLoop acceptAll (write acceptAll
          (addCommaIfNeeded acceptAll b).2 (34 :: key ++ [34, 58, 91])).2
          rendered true).1 = SjsonStatus.ok
      · rw [if_neg (not_ne_ok (l1.trans hloop)), if_neg (not_ne_ok hloop)]
        obtain ⟨f1, f2, hRL4⟩ := write_sim [93] hRL3
        exact ⟨by rw [f1, f2], hRL4.1⟩
      · rw [if_pos (fun hx => hloop (l1.symm.trans hx)), if_pos hloop]
        exact ⟨by rw [l1], hRL3.1⟩
  · have ea : sjson_AddFloatArrayToObject acceptAll a key rendered =
        (checkObjectState b, a) := by
      unfold sjson_AddFloatArrayToObject
      simp only []
      rw [hchk, if_pos hok]
    have eb : sjson_AddFloatArrayToObject acceptAll b key rendered =
        (checkObjectState b, b) := by
      unfold sjson_AddFloatArrayToObject
      simp only []
      rw [if_pos hok]
    rw [ea, eb]
    exact ⟨rfl, hga, hgb, habs⟩

/-- `sjson_Flush` moves the two runs in lockstep. -/
theorem flush_sim {a b : SjsonCtx} (h : Rel a b) :
    (sjson_Flush acceptAll a).1 = (sjson_Flush acceptAll b).1 ∧
    Rel (sjson_Flush acceptAll a).2 (sjson_Flush acceptAll b).2 := by
  obtain ⟨hga, hgb, habs⟩ := h
  obtain ⟨e1, e2, e3, e4, e5, e6⟩ := abs_fields habs
  have fa := flush_acceptAll a
  have fb := flush_acceptAll b
  have hfra := frame_fields (sjson_Flush_frame acceptAll a)
  have hfrb := frame_fields (sjson_Flush_frame acceptAll b)
  refine ⟨fa.1.trans fb.1.symm, ⟨?_, ?_, fun _ => fa.2.2⟩,
    ⟨?_, ?_, fun _ => fb.2.2⟩, ?_⟩
  · rw [hfra.2.2.2.2.2]; exact hga.1
  · rw [fa.2.2]; simp
  · rw [hfrb.2.2.2.2.2]; exact hgb.1
  · rw [fb.2.2]; simp
  · simp only [absOf, Prod.mk.injEq]
    refine ⟨?_, by rw [hfra.1, hfrb.1]; exact e2,
      by rw [hfra.2.1, hfrb.2.1]; exact e3,
      by rw [hfra.2.2.1, hfrb.2.2.1]; exact e4,
      by rw [hfra.2.2.2.1, hfrb.2.2.2.1]; exact e5,
      by rw [hfra.2.2.2.2.1, hfrb.2.2.2.2.1]; exact e6⟩
    unfold outOf
    rw [fa.2.1, fa.2.2, fb.2.1, fb.2.2]
    simpa [outOf] using e1

/-- `sjson_Close` moves the two runs in lockstep. -/
theorem close_sim {a b : SjsonCtx} (h : Rel a b) :
    (sjson_Close acceptAll a).1 = (sjson_Close acceptAll b).1 ∧
    Rel (sjson_Close acceptAll a).2 (sjson_Close acceptAll b).2 := by
  obtain ⟨hga, hgb, habs⟩ := h
  obtain ⟨e1, e2, e3, e4, e5, e6⟩ := abs_fields habs
  by_cases hguard : (b.finalized || b.depth == 0) = true
  · have hguarda : (a.finalized || a.depth == 0) = true := by
      rw [e6, e2]; exact hguard
    have ea : sjson_Close acceptAll a = (SjsonStatus.invalidState, a) := by
      unfold sjson_Close; rw [if_pos hguarda]
    have eb : sjson_Close acceptAll b = (SjsonStatus.invalidState, b) := by
      unfold sjson_Close; rw [if_pos hguard]
    rw [ea, eb]
    exact ⟨rfl, hga, hgb, habs⟩
  · have hguarda : ¬ (a.finalized || a.depth == 0) = true := by
      rw [e6, e2]; exact hguard
    have hgb2 := hguard
    simp only [Bool.or_eq_true, beq_iff_eq, not_or] at hgb2
    obtain ⟨hfb', hdb⟩ := hgb2
    have hfb : b.finalized = false := by simpa using hfb'
    have hfa : a.finalized = false := by rw [e6]; exact hfb
    have hRLw : RelLive { a with depth := a.depth - 1 }
        { b with depth := b.depth - 1 } := by
      refine ⟨⟨hga, hgb, ?_⟩, hfa, hfb⟩
      simp only [absOf, outOf, Prod.mk.injEq]
      exact ⟨by simpa [outOf] using e1, by rw [e2], e3, e4, e5, e6⟩
    have hdat : [a.depthStack.getD (a.depth - 1) 0] =
        [b.depthStack.getD (b.depth - 1) 0] := by rw [e2, e3]
    have hwa_eq : write acceptAll { a with depth := a.depth - 1 }
          [a.depthStack.getD (a.depth - 1) 0] =
        write acceptAll { a with depth := a.depth - 1 }
          [b.depthStack.getD (b.depth - 1) 0] := by rw [hdat]
    obtain ⟨w1, w2, hRLw2⟩ := write_sim [b.depthStack.getD (b.depth - 1) 0] hRLw
    obtain ⟨f1, f2, f3, f4, f5, f6⟩ := abs_fields hRLw2.1.2.2
    have hdA : (write acceptAll { a with depth := a.depth - 1 }
        [b.depthStack.getD (b.depth - 1) 0]).2.depth = a.depth - 1 :=
      write_depth acceptAll _ _
    have hdB : (write acceptAll { b with depth := b.depth - 1 }
        [b.depthStack.getD (b.depth - 1) 0]).2.depth = b.depth - 1 :=
      write_depth acceptAll _ _
    by_cases hz : b.depth - 1 = 0
    · have ea : sjson_Close acceptAll a =
          (SjsonStatus.ok, (sjson_Flush acceptAll
            { (write acceptAll { a with depth := a.depth - 1 }
                [a.depthStack.getD (a.depth - 1) 0]).2 with
              finalized := true }).2) := by
        unfold sjson_Close
        simp only []
        rw [if_neg hguarda,
          if_neg (not_ne_ok (by rw [hwa_eq]; exact w1)),
          if_pos (by
            rw [hwa_eq]
            simp only [beq_iff_eq, hdA]
            rw [e2]
            exact hz),
          if_neg (not_ne_ok (flush_acceptAll _).1)]
      have eb : sjson_Close acceptAll b =
          (SjsonStatus.ok, (sjson_Flush acceptAll
            { (write acceptAll { b with depth := b.depth - 1 }
                [b.depthStack.getD (b.depth - 1) 0]).2 with
              finalized := true }).2) := by
        unfold sjson_Close
        simp only []
        rw [if_neg hguard,
          if_neg (not_ne_ok w2),
          if_pos (by simp only [beq_iff_eq, hdB]; exact hz),
          if_neg (not_ne_ok (flush_acceptAll _).1)]
      rw [ea, eb, hwa_eq]
      have ffa := flush_acceptAll
        { (write acceptAll { a with depth := a.depth - 1 }
            [b.depthStack.getD (b.depth - 1) 0]).2 with finalized := true }
      have ffb := flush_acceptAll
        { (write acceptAll { b with depth := b.depth - 1 }
            [b.depthStack.getD (b.depth - 1) 0]).2 with finalized := true }
      have hfraf := frame_fields (sjson_Flush_frame acceptAll
        { (write acceptAll { a with depth := a.depth - 1 }
            [b.depthStack.getD (b.depth - 1) 0]).2 with finalized := true })
      have hfrbf := frame_fields (sjson_Flush_frame acceptAll
        { (write acceptAll { b with depth := b.depth - 1 }
            [b.depthStack.getD (b.depth - 1) 0]).2 with finalized := true })
      refine ⟨rfl, ⟨?_, ?_, fun _ => ffa.2.2⟩, ⟨?_, ?_, fun _ => ffb.2.2⟩, ?_⟩
      · rw [hfraf.2.2.2.2.2]
        exact hRLw2.1.1.1
      · rw [ffa.2.2]; simp
      · rw [hfrbf.2.2.2.2.2]
        exact hRLw2.1.2.1.1
      · rw [ffb.2.2]; simp
      · simp only [absOf, Prod.mk.injEq]
        refine ⟨?_, by rw [hfraf.1, hfrbf.1]; exact f2,
          by rw [hfraf.2.1, hfrbf.2.1]; exact f3,
          by rw [hfraf.2.2.1, hfrbf.2.2.1]; exact f4,
          by rw [hfraf.2.2.2.1, hfrbf.2.2.2.1]; exact f5,
          by rw [hfraf.2.2.2.2.1, hfrbf.2.2.2.2.1]⟩
        unfold outOf
        rw [ffa.2.1, ffa.2.2, ffb.2.1, ffb.2.2]
        simpa [outOf] using f1
    · have ea : sjson_Close acceptAll a =
          (SjsonStatus.ok,
           { (write acceptAll { a with depth := a.depth - 1 }
                [a.depthStack.getD (a.depth - 1) 0]).2 with
             needsComma := (write acceptAll { a with depth := a.depth - 1 }
                [a.depthStack.getD (a.depth - 1) 0]).2.needsComma.set
                  (write acceptAll { a with depth := a.depth - 1 }
                    [a.depthStack.getD (a.depth - 1) 0]).2.depth true }) := by
        unfold sjson_Close
        simp only []
        rw [if_neg hguarda,
          if_neg (not_ne_ok (by rw [hwa_eq]; exact w1)),
          if_neg (by
            rw [hwa_eq]
            simp only [beq_iff_eq, hdA]
            rw [e2]
            exact hz)]
      have eb : sjson_Close acceptAll b =
          (SjsonStatus.ok,
           { (write acceptAll { b with depth := b.depth - 1 }
                [b.depthStack.getD (b.depth - 1) 0]).2 with
             needsComma := (write acceptAll { b with depth := b.depth - 1 }
                [b.depthStack.getD (b.depth - 1) 0]).2.needsComma.set
                  (write acceptAll { b with depth := b.depth - 1 }
                    [b.depthStack.getD (b.depth - 1) 0]).2.depth true }) := by
        unfold sjson_Close
        simp only []
        rw [if_neg hguard,
          if_neg (not_ne_ok w2),
          if_neg (by simp only [beq_iff_eq, hdB]; exact hz)]
      rw [ea, eb, hwa_eq]
      refine ⟨rfl, hRLw2.1.1, hRLw2.1.2.1, ?_⟩
      simp only [absOf, outOf, Prod.mk.injEq]
      exact ⟨by simpa [outOf] using f1, f2, f3, f4, by rw [f5, f2], f6⟩

/-- `sjson_End`'s closing loop moves the two runs in lockstep. -/
theorem endLoop_sim :
    ∀ (fuel : Nat) {a b : SjsonCtx}, Rel a b →
      (sjson_EndLoop acceptAll fuel a).1 = (sjson_EndLoop acceptAll fuel b).1 ∧
      Rel (sjson_EndLoop acceptAll fuel a).2 (sjson_EndLoop acceptAll fuel b).2 := by
  intro fuel
  induction fuel with
  | zero => intro a b h; exact ⟨rfl, h⟩
  | succ f ih =>
      intro a b h
      have e2 := (abs_fields h.2.2).2.1
      unfold sjson_EndLoop
      simp only []
      by_cases hz : b.depth = 0
      · rw [if_pos (by rw [e2]; exact hz), if_pos hz]
        exact ⟨rfl, h⟩
      · rw [if_neg (by rw [e2]; exact hz), if_neg hz]
        obtain ⟨cs, cR⟩ := close_sim h
        by_cases hcs : (sjson_Close acceptAll b).1 = SjsonStatus.ok
        · rw [if_pos (cs.trans hcs), if_pos hcs]
          exact ih cR
        · rw [if_neg (fun hx => hcs (cs.symm.trans hx)), if_neg hcs]
          exact ⟨cs, cR⟩

/-- `sjson_End` moves the two runs in lockstep. -/
theorem end_sim {a b : SjsonCtx} (h : Rel a b) :
    (sjson_End acceptAll a).1 = (sjson_End acceptAll b).1 ∧
    Rel (sjson_End acceptAll a).2 (sjson_End acceptAll b).2 := by
  have e2 := (abs_fields h.2.2).2.1
  have e6 := (abs_fields h.2.2).2.2.2.2.2
  unfold sjson_End
  by_cases hf : b.finalized = true
  · rw [if_pos (by rw [e6]; exact hf), if_pos hf]
    exact flush_sim h
  · rw [if_neg (by rw [e6]; exact hf), if_neg hf, e2]
    exact endLoop_sim (b.depth + 1) h

/-- The context `sjson_Init{Object,Array}` rebuilds before writing the
opening token (`c0` in the two C functions: fresh buffer, zeroed nesting
state). -/
def initCore (ctx : SjsonCtx) (bufferSize : Nat) : SjsonCtx :=
  { ctx with bufferSize := bufferSize, buf := [], depth := 0,
             maxDepth := SJSON_MAX_DEPTH, finalized := false,
             depthStack := List.replicate 9 0,
             needsComma := List.replicate 9 false }

/-- `sjson_InitObject` in terms of `initCore`. -/
theorem initObject_eq (sink : Nat → Bool) (ctx : SjsonCtx) (s : Nat) :
    sjson_InitObject sink ctx s =
      (if s == 0 then (SjsonStatus.invalidParam, ctx)
       else
        let r := write sink (initCore ctx s) [123]
        if r.1 ≠ SjsonStatus.ok then r
        else
          (SjsonStatus.ok,
           { r.2 with depthStack := r.2.depthStack.set r.2.depth 125,
                      depth := r.2.depth + 1,
                      needsComma := r.2.needsComma.set (r.2.depth + 1) false })) := rfl

/-- `sjson_InitArray` in terms of `initCore`. -/
theorem initArray_eq (sink : Nat → Bool) (ctx : SjsonCtx) (s : Nat) :
    sjson_InitArray sink ctx s =
      (if s == 0 then (SjsonStatus.invalidParam, ctx)
       else
        let r := write sink (initCore ctx s) [91]
        if r.1 ≠ SjsonStatus.ok then r
        else
          (SjsonStatus.ok,
           { r.2 with depthStack := r.2.depthStack.set r.2.depth 93,
                      depth := r.2.depth + 1,
                      needsComma := r.2.needsComma.set (r.2.depth + 1) false })) := rfl

/-- The re-initialized contexts of two runs are in lockstep whenever their
histories agree on the bytes already accepted by the sink. -/
theorem initCore_relLive {a b : SjsonCtx} (s1 s2 : Nat) (h1 : 1 ≤ s1)
    (h2 : 1 ≤ s2) (hs : a.sent = b.sent) :
    RelLive (initCore a s1) (initCore b s2) := by
  unfold initCore
  refine ⟨⟨⟨h1, by simp, by intro hx; cases hx⟩,
    ⟨h2, by simp, by intro hx; cases hx⟩, ?_⟩, rfl, rfl⟩
  simp [absOf, outOf, hs]

/-- `sjson_InitObject` puts two runs in lockstep whenever their histories
agree on the bytes already accepted by the sink (any still-buffered bytes
are discarded by the re-initialization). -/
theorem initObject_sim {a b : SjsonCtx} (s1 s2 : Nat) (h1 : 1 ≤ s1)
    (h2 : 1 ≤ s2) (hs : a.sent = b.sent) :
    (sjson_InitObject acceptAll a s1).1 = (sjson_InitObject acceptAll b s2).1 ∧
    Rel (sjson_InitObject acceptAll a s1).2 (sjson_InitObject acceptAll b s2).2 := by
  obtain ⟨w1, w2, hRL2⟩ := write_sim [123] (initCore_relLive s1 s2 h1 h2 hs)
  have ea : sjson_InitObject acceptAll a s1 =
      (SjsonStatus.ok,
       { (write acceptAll (initCore a s1) [123]).2 with
         depthStack := (write acceptAll (initCore a s1) [123]).2.depthStack.set
           (write acceptAll (initCore a s1) [123]).2.depth 125,
         depth := (write acceptAll (initCore a s1) [123]).2.depth + 1,
         needsComma := (write acceptAll (initCore a s1) [123]).2.needsComma.set
           ((write acceptAll (initCore a s1) [123]).2.depth + 1) false }) := by
    rw [initObject_eq]
    simp only []
    rw [if_neg (by simp; omega), if_neg (not_ne_ok w1)]
  have eb : sjson_InitObject acceptAll b s2 =
      (SjsonStatus.ok,
       { (write acceptAll (initCore b s2) [123]).2 with
         depthStack := (write acceptAll (initCore b s2) [123]).2.depthStack.set
           (write acceptAll (initCore b s2) [123]).2.depth 125,
         depth := (write acceptAll (initCore b s2) [123]).2.depth + 1,
         needsComma := (write acceptAll (initCore b s2) [123]).2.needsComma.set
           ((write acceptAll (initCore b s2) [123]).2.depth + 1) false }) := by
    rw [initObject_eq]
    simp only []
    rw [if_neg (by simp; omega), if_neg (not_ne_ok w2)]
  rw [ea, eb]
  exact ⟨rfl, push_rel hRL2 125⟩

/-- `sjson_InitArray`, as `sjson_InitObject`. -/
theorem initArray_sim {a b : SjsonCtx} (s1 s2 : Nat) (h1 : 1 ≤ s1)
    (h2 : 1 ≤ s2) (hs : a.sent = b.sent) :
    (sjson_InitArray acceptAll a s1).1 = (sjson_InitArray acceptAll b s2).1 ∧
    Rel (sjson_InitArray acceptAll a s1).2 (sjson_InitArray acceptAll b s2).2 := by
  obtain ⟨w1, w2, hRL2⟩ := write_sim [91] (initCore_relLive s1 s2 h1 h2 hs)
  have ea : sjson_InitArray acceptAll a s1 =
      (SjsonStatus.ok,
       { (write acceptAll (initCore a s1) [91]).2 with
         depthStack := (write acceptAll (initCore a s1) [91]).2.depthStack.set
           (write acceptAll (initCore a s1) [91]).2.depth 93,
         depth := (write acceptAll (initCore a s1) [91]).2.depth + 1,
         needsComma := (write acceptAll (initCore a s1) [91]).2.needsComma.set
           ((write acceptAll (initCore a s1) [91]).2.depth + 1) false }) := by
    rw [initArray_eq]
    simp only []
    rw [if_neg (by simp; omega), if_neg (not_ne_ok w1)]
  have eb : sjson_InitArray acceptAll b s2 =
      (SjsonStatus.ok,
       { (write acceptAll (initCore b s2) [91]).2 with
         depthStack := (write acceptAll (initCore b s2) [91]).2.depthStack.set
           (write acceptAll (initCore b s2) [91]).2.depth 93,
         depth := (write acceptAll (initCore b s2) [91]).2.depth + 1,
         needsComma := (write acceptAll (initCore b s2) [91]).2.needsComma.set
           ((write acceptAll (initCore b s2) [91]).2.depth + 1) false }) := by
    rw [initArray_eq]
    simp only []
    rw [if_neg (by simp; omega), if_neg (not_ne_ok w2)]
  rw [ea, eb]
  exact ⟨rfl, push_rel hRL2 93⟩

/-- Every non-`Init` operation moves the two runs in lockstep. -/
theorem applyOp_sim (s1 s2 : Nat) (op : SjsonOp)
    (hno : op ≠ SjsonOp.initObject) (hna : op ≠ SjsonOp.initArray)
    {a b : SjsonCtx} (h : Rel a b) :
    (applyOp acceptAll s1 op a).1 = (applyOp acceptAll s2 op b).1 ∧
    Rel (applyOp acceptAll s1 op a).2 (applyOp acceptAll s2 op b).2 := by
  cases op with
  | initObject => exact absurd rfl hno
  | initArray => exact absurd rfl hna
  | closeOp => exact close_sim h
  | endOp => exact end_sim h
  | flushOp => exact flush_sim h
  | addStringToObject key value =>
      simp only [applyOp, addStringToObject_eq]
      exact memberAdd_sim true 256 _ h
  | addIntToObject key value =>
      simp only [applyOp, addIntToObject_eq]
      exact memberAdd_sim true 128 _ h
  | addFloatToObject key rendered =>
      simp only [applyOp, addFloatToObject_eq]
      exact memberAdd_sim true 128 _ h
  | addRawToObject key value => exact addRaw_sim key value h
  | addIntArrayToObject key values =>
      simp only [applyOp, addIntArray_eq_floatArray]
      exact addFloatArray_sim key (values.map intToAscii) h
  | addFloatArrayToObject key rendered => exact addFloatArray_sim key rendered h
  | addArrayToObject key => exact addArrayToObject_sim key h
  | addObjectToObject key => exact addObjectToObject_sim key h
  | addIntToArray value =>
      simp only [applyOp, addIntToArray_eq]
      exact memberAdd_sim false 32 _ h
  | addFloatToArray rendered =>
      simp only [applyOp, addFloatToArray_eq]
      exact memberAdd_sim false 32 _ h
  | addStringToArray value => exact addStringToArray_sim value h

/-- A run of `Init`-free operations moves the two runs in lockstep,
statuses included. -/
theorem runFrom_sim (s1 s2 : Nat) :
    ∀ (ops : List SjsonOp),
      (∀ op ∈ ops, op ≠ SjsonOp.initObject ∧ op ≠ SjsonOp.initArray) →
      ∀ {a b : SjsonCtx}, Rel a b →
        (runFrom acceptAll s1 a ops).1 = (runFrom acceptAll s2 b ops).1 ∧
        Rel (runFrom acceptAll s1 a ops).2 (runFrom acceptAll s2 b ops).2 := by
  intro ops
  induction ops with
  | nil => intro _ a b h; exact ⟨rfl, h⟩
  | cons op rest ih =>
      intro hni a b h
      have hop := hni op (List.mem_cons_self op rest)
      obtain ⟨hs1, hR1⟩ := applyOp_sim s1 s2 op hop.1 hop.2 h
      obtain ⟨hs2, hR2⟩ := ih (fun o ho => hni o (List.mem_cons_of_mem op ho)) hR1
      unfold runFrom
      simp only []
      exact ⟨by rw [hs1, hs2], hR2⟩

/-- Two runs of the same operation sequence (`Init`s only in head position)
with accepting sinks end in lockstep, statuses included. -/
theorem runOps_sim (s1 s2 : Nat) (ops : List SjsonOp) (h1 : 1 ≤ s1)
    (h2 : 1 ≤ s2)
    (hni : ∀ op ∈ ops.tail, op ≠ SjsonOp.initObject ∧ op ≠ SjsonOp.initArray) :
    (runOps acceptAll s1 ops).1 = (runOps acceptAll s2 ops).1 ∧
    Rel (runOps acceptAll s1 ops).2 (runOps acceptAll s2 ops).2 := by
  have hinit : Rel (mkInitial s1) (mkInitial s2) := by
    refine ⟨⟨h1, by simp [mkInitial], by intro hx; cases hx⟩,
      ⟨h2, by simp [mkInitial], by intro hx; cases hx⟩, rfl⟩
  cases ops with
  | nil => exact ⟨rfl, hinit⟩
  | cons op rest =>
      have hhead : (applyOp acceptAll s1 op (mkInitial s1)).1 =
          (applyOp acceptAll s2 op (mkInitial s2)).1 ∧
          Rel (applyOp acceptAll s1 op (mkInitial s1)).2
            (applyOp acceptAll s2 op (mkInitial s2)).2 := by
        by_cases hio : op = SjsonOp.initObject
        · subst hio
          exact initObject_sim s1 s2 h1 h2 rfl
        · by_cases hia : op = SjsonOp.initArray
          · subst hia
            exact initArray_sim s1 s2 h1 h2 rfl
          · exact applyOp_sim s1 s2 op hio hia hinit
      obtain ⟨hs2, hR2⟩ := runFrom_sim s1 s2 rest hni hhead.2
      unfold runOps runFrom
      simp only []
      exact ⟨by rw [hhead.1, hs2], hR2⟩

/-! ## Writer: the finalization invariant (arbitrary sink)

`sjson_Close` only sets `finalized` after popping the last frame, so in
every reachable context `finalized = true` forces `depth = 0` — for any
sink behavior.  (The spec's companion claim `used = 0` is *not* invariant:
a rejected finalizing flush retains the bytes.) -/

/-- A finalized context has no open collections. -/
def FinOk (ctx : SjsonCtx) : Prop := ctx.finalized = true → ctx.depth = 0

theorem finok_of_false {c : SjsonCtx} (h : c.finalized = false) : FinOk c := by
  intro hx
  rw [h] at hx
  cases hx

theorem memberAdd_FinOk (useObj : Bool) (limit : Nat) (formatted : List Nat)
    (sink : Nat → Bool) (c : SjsonCtx) (h : FinOk c) :
    FinOk (memberAdd useObj limit formatted sink c).2 := by
  unfold memberAdd
  simp only []
  by_cases hok : (if useObj then checkObjectState c else checkArrayState c) ≠
      SjsonStatus.ok
  · rw [if_pos hok]
    exact h
  · rw [if_neg hok]
    have hf : c.finalized = false := check_ite_ok_finalized (not_not.mp hok)
    repeat' split
    all_goals
      exact finok_of_false
        (by simp only [write_finalized, addComma_finalized]; exact hf)

theorem addRaw_FinOk (sink : Nat → Bool) (c : SjsonCtx) (key value : List Nat)
    (h : FinOk c) : FinOk (sjson_AddRawToObject sink c key value).2 := by
  unfold sjson_AddRawToObject
  simp only []
  split
  · exact h
  · rename_i hok
    have hf : c.finalized = false :=
      checkObjectState_ok_finalized (not_not.mp hok)
    repeat' split
    all_goals
      exact finok_of_false
        (by simp only [write_finalized, addComma_finalized]; exact hf)

theorem addStringToArray_FinOk (sink : Nat → Bool) (c : SjsonCtx)
    (value : List Nat) (h : FinOk c) :
    FinOk (sjson_AddStringToArray sink c value).2 := by
  unfold sjson_AddStringToArray
  simp only []
  split
  · exact h
  · rename_i hok
    have hf : c.finalized = false :=
      checkArrayState_ok_finalized (not_not.mp hok)
    repeat' split
    all_goals
      exact finok_of_false
        (by simp only [write_finalized, addComma_finalized]; exact hf)

theorem addFloatArrayLoop_finalized :
    ∀ (rendered : List (List Nat)) (first : Bool) (sink : Nat → Bool)
      (c : SjsonCtx),
      (addFloatArrayLoop sink c rendered first).2.finalized = c.finalized := by
  intro rendered
  induction rendered with
  | nil => intro first sink c; rfl
  | cons v rest ih =>
      intro first sink c
      unfold addFloatArrayLoop
      simp only []
      by_cases hlim :
          ((if first then ([] : List Nat) else [44]) ++ v).length ≥ 32
      · rw [if_pos hlim]
      · rw [if_neg hlim]
        by_cases hw : (write sink c
            ((if first then ([] : List Nat) else [44]) ++ v)).1 ≠
            SjsonStatus.ok
        · rw [if_pos hw]
          exact write_finalized sink c _
        · rw [if_neg hw]
          rw [ih, write_finalized]

theorem addFloatArray_FinOk (sink : Nat → Bool) (c : SjsonCtx)
    (key : List Nat) (rendered : List (List Nat)) (h : FinOk c) :
    FinOk (sjson_AddFloatArrayToObject sink c key rendered).2 := by
  unfold sjson_AddFloatArrayToObject
  simp only []
  split
  · exact h
  · rename_i hok
    have hf : c.finalized = false :=
      checkObjectState_ok_finalized (not_not.mp hok)
    repeat' split
    all_goals
      exact finok_of_false
        (by simp only [write_finalized, addComma_finalized,
              addFloatArrayLoop_finalized]; exact hf)

theorem addIntArray_FinOk (sink : Nat → Bool) (c : SjsonCtx)
    (key : List Nat) (values : List Int) (h : FinOk c) :
    FinOk (sjson_AddIntArrayToObject sink c key values).2 := by
  rw [addIntArray_eq_floatArray]
  exact addFloatArray_FinOk sink c key (values.map intToAscii) h

theorem addObject_FinOk (sink : Nat → Bool) (c : SjsonCtx) (key : List Nat)
    (h : FinOk c) : FinOk (sjson_AddObjectToObject sink c key).2 := by
  unfold sjson_AddObjectToObject
  simp only []
  split
  · exact h
  · rename_i hok
    have hf : c.finalized = false :=
      checkObjectState_ok_finalized (not_not.mp hok)
    split
    · exact h
    · repeat' split
      all_goals
        exact finok_of_false
          (by simp only [write_finalized, addComma_finalized]; exact hf)

theorem addArray_FinOk (sink : Nat → Bool) (c : SjsonCtx) (key : List Nat)
    (h : FinOk c) : FinOk (sjson_AddArrayToObject sink c key).2 := by
  unfold sjson_AddArrayToObject
  simp only []
  split
  · exact h
  · split
    · exact h
    · rename_i hkey hok
      have hf : c.finalized = false :=
        checkObjectState_ok_finalized (not_not.mp hok)
      split
      · exact h
      · repeat' split
        all_goals
          exact finok_of_false
            (by simp only [write_finalized, addComma_finalized]; exact hf)

theorem initObject_FinOk (sink : Nat → Bool) (c : SjsonCtx) (s : Nat)
    (h : FinOk c) : FinOk (sjson_InitObject sink c s).2 := by
  rw [initObject_eq]
  simp only []
  split
  · exact h
  · split
    · exact finok_of_false (by rw [write_finalized]; rfl)
    · exact finok_of_false (by simp only [write_finalized]; rfl)

theorem initArray_FinOk (sink : Nat → Bool) (c : SjsonCtx) (s : Nat)
    (h : FinOk c) : FinOk (sjson_InitArray sink c s).2 := by
  rw [initArray_eq]
  simp only []
  split
  · exact h
  · split
    · exact finok_of_false (by rw [write_finalized]; rfl)
    · exact finok_of_false (by simp only [write_finalized]; rfl)

theorem flush_FinOk (sink : Nat → Bool) (c : SjsonCtx) (h : FinOk c) :
    FinOk (sjson_Flush sink c).2 := by
  intro hx
  rw [sjson_Flush_finalized] at hx
  rw [sjson_Flush_depth]
  exact h hx

theorem close_FinOk (sink : Nat → Bool) (c : SjsonCtx) (h : FinOk c) :
    FinOk (sjson_Close sink c).2 := by
  unfold sjson_Close
  simp only []
  split
  · exact h
  · rename_i hg
    simp only [Bool.or_eq_true, beq_iff_eq, not_or] at hg
    have hf : c.finalized = false := by simpa using hg.1
    split
    · exact finok_of_false (by simp only [write_finalized]; exact hf)
    · split
      · rename_i hz
        simp only [beq_iff_eq] at hz
        split
        · intro _
          rw [sjson_Flush_depth]
          exact hz
        · intro _
          rw [sjson_Flush_depth]
          exact hz
      · exact finok_of_false (by simp only [write_finalized]; exact hf)

theorem endLoop_FinOk (sink : Nat → Bool) :
    ∀ (fuel : Nat) (c : SjsonCtx), FinOk c →
      FinOk (sjson_EndLoop sink fuel c).2 := by
  intro fuel
  induction fuel with
  | zero => intro c h; exact h
  | succ f ih =>
      intro c h
      unfold sjson_EndLoop
      simp only []
      split
      · exact h
      · split
        · exact ih _ (close_FinOk sink c h)
        · exact close_FinOk sink c h

theorem end_FinOk (sink : Nat → Bool) (c : SjsonCtx) (h : FinOk c) :
    FinOk (sjson_End sink c).2 := by
  unfold sjson_End
  split
  · exact flush_FinOk sink c h
  · exact endLoop_FinOk sink (c.depth + 1) c h

/-- Every writer operation preserves the finalization invariant. -/
theorem applyOp_FinOk (sink : Nat → Bool) (size : Nat) (op : SjsonOp)
    (c : SjsonCtx) (h : FinOk c) : FinOk (applyOp sink size op c).2 := by
  cases op with
  | initObject => exact initObject_FinOk sink c size h
  | initArray => exact initArray_FinOk sink c size h
  | closeOp => exact close_FinOk sink c h
  | endOp => exact end_FinOk sink c h
  | flushOp => exact flush_FinOk sink c h
  | addStringToObject key value =>
      simp only [applyOp, addStringToObject_eq]
      exact memberAdd_FinOk true 256 _ sink c h
  | addIntToObject key value =>
      simp only [applyOp, addIntToObject_eq]
      exact memberAdd_FinOk true 128 _ sink c h
  | addFloatToObject key rendered =>
      simp only [applyOp, addFloatToObject_eq]
      exact memberAdd_FinOk true 128 _ sink c h
  | addRawToObject key value => exact addRaw_FinOk sink c key value h
  | addIntArrayToObject key values => exact addIntArray_FinOk sink c key values h
  | addFloatArrayToObject key rendered =>
      exact addFloatArray_FinOk sink c key rendered h
  | addArrayToObject key => exact addArray_FinOk sink c key h
  | addObjectToObject key => exact addObject_FinOk sink c key h
  | addIntToArray value =>
      simp only [applyOp, addIntToArray_eq]
      exact memberAdd_FinOk false 32 _ sink c h
  | addFloatToArray rendered =>
      simp only [applyOp, addFloatToArray_eq]
      exact memberAdd_FinOk false 32 _ sink c h
  | addStringToArray value => exact addStringToArray_FinOk sink c value h

/-- The finalization invariant holds along every run. -/
theorem runFrom_FinOk (sink : Nat → Bool) (size : Nat) :
    ∀ (ops : List SjsonOp) (c : SjsonCtx), FinOk c →
      FinOk (runFrom sink size c ops).2 := by
  intro ops
  induction ops with
  | nil => intro c h; exact h
  | cons op rest ih =>
      intro c h
      unfold runFrom
      simp only []
      exact ih _ (applyOp_FinOk sink size op c h)

/-! ## Writer: the claims -/

/-- The C2 call sequence: `InitObject`, `AddStringToObject("status","ok")`,
`AddIntToObject("count",3)`, `End`. -/
def c2ops : List SjsonOp :=
  [SjsonOp.initObject,
   SjsonOp.addStringToObject [115, 116, 97, 116, 117, 115] [111, 107],
   SjsonOp.addIntToObject [99, 111, 117, 110, 116] 3,
   SjsonOp.endOp]

/-- The bytes of `{"status":"ok","count":3}`. -/
def c2bytes : List Nat :=
  [123, 34, 115, 116, 97, 116, 117, 115, 34, 58, 34, 111, 107, 34, 44,
   34, 99, 111, 117, 110, 116, 34, 58, 51, 125]

/-- C2: with any non-empty buffer and an accepting sink, the sequence
InitObject; AddStringToObject("status","ok"); AddIntToObject("count",3);
End succeeds at every step and delivers exactly `{"status":"ok","count":3}`
to the sink (the final buffer is empty: everything was flushed). -/
theorem c2_fixed_sequence (s : Nat) (h : 1 ≤ s) :
    (runOps acceptAll s c2ops).1 =
      [SjsonStatus.ok, SjsonStatus.ok, SjsonStatus.ok, SjsonStatus.ok] ∧
    (runOps acceptAll s c2ops).2.sent = c2bytes ∧
    (runOps acceptAll s c2ops).2.buf = [] := by
  obtain ⟨hst, hga, hgb, habs⟩ := runOps_sim s 512 c2ops h (by omega) (by decide)
  obtain ⟨e1, e2, e3, e4, e5, e6⟩ := abs_fields habs
  have h512 : (runOps acceptAll 512 c2ops).1 =
        [SjsonStatus.ok, SjsonStatus.ok, SjsonStatus.ok, SjsonStatus.ok] ∧
      (runOps acceptAll 512 c2ops).2.sent = c2bytes ∧
      (runOps acceptAll 512 c2ops).2.buf = [] ∧
      (runOps acceptAll 512 c2ops).2.finalized = true := by decide
  have hfin : (runOps acceptAll s c2ops).2.finalized = true := by
    rw [e6]; exact h512.2.2.2
  have hbuf : (runOps acceptAll s c2ops).2.buf = [] := hga.2.2 hfin
  refine ⟨hst.trans h512.1, ?_, hbuf⟩
  have e1' : (runOps acceptAll s c2ops).2.sent ++
        (runOps acceptAll s c2ops).2.buf =
      (runOps acceptAll 512 c2ops).2.sent ++
        (runOps acceptAll 512 c2ops).2.buf := e1
  rw [hbuf, h512.2.1, h512.2.2.1] at e1'
  simpa using e1'

/-- C2, instantiated at buffer size 1 (smaller than every field). -/
theorem c2_fixed_sequence_witness :
    (runOps acceptAll 1 c2ops).1 =
      [SjsonStatus.ok, SjsonStatus.ok, SjsonStatus.ok, SjsonStatus.ok] ∧
    (runOps acceptAll 1 c2ops).2.sent = c2bytes ∧
    (runOps acceptAll 1 c2ops).2.buf = [] :=
  c2_fixed_sequence 1 (by decide)

/-- A sequence that re-initializes mid-run. -/
def c3ops : List SjsonOp :=
  [SjsonOp.initObject, SjsonOp.addStringToObject [107] [118],
   SjsonOp.initObject, SjsonOp.endOp]

/-- C3 as literally stated is false: a mid-run `InitObject` discards the
buffered (not yet flushed) bytes, so what reached the sink before the
re-initialization depends on the buffer size.  With sizes 1 and 512 the
statuses agree (all succeed) and both runs end flushed, yet the bytes the
sink received differ. -/
theorem c3_reinit_size_dependent :
    (runOps acceptAll 1 c3ops).1 = (runOps acceptAll 512 c3ops).1 ∧
    (runOps acceptAll 1 c3ops).2.buf = [] ∧
    (runOps acceptAll 512 c3ops).2.buf = [] ∧
    (runOps acceptAll 1 c3ops).2.sent ≠ (runOps acceptAll 512 c3ops).2.sent := by
  decide

/-- C3 (amended to sequences whose only `Init` is the leading operation):
under an accepting sink, two runs of the same operation sequence with any
buffer sizes ≥ 1 return identical statuses and account for identical byte
streams (`sent ++ buf`); once the run is finalized the buffers are empty,
so the bytes delivered to the sink are themselves identical. -/
theorem c3_buffer_size_independence (s1 s2 : Nat) (ops : List SjsonOp)
    (h1 : 1 ≤ s1) (h2 : 1 ≤ s2)
    (hni : ∀ op ∈ ops.tail, op ≠ SjsonOp.initObject ∧ op ≠ SjsonOp.initArray) :
    (runOps acceptAll s1 ops).1 = (runOps acceptAll s2 ops).1 ∧
    outOf (runOps acceptAll s1 ops).2 = outOf (runOps acceptAll s2 ops).2 ∧
    ((runOps acceptAll s1 ops).2.finalized = true →
      (runOps acceptAll s1 ops).2.sent = (runOps acceptAll s2 ops).2.sent) := by
  obtain ⟨hst, hga, hgb, habs⟩ := runOps_sim s1 s2 ops h1 h2 hni
  obtain ⟨e1, e2, e3, e4, e5, e6⟩ := abs_fields habs
  refine ⟨hst, e1, ?_⟩
  intro hfin
  have hbuf1 := hga.2.2 hfin
  have hbuf2 := hgb.2.2 (by rw [← e6]; exact hfin)
  have e1' : (runOps acceptAll s1 ops).2.sent ++
        (runOps acceptAll s1 ops).2.buf =
      (runOps acceptAll s2 ops).2.sent ++
        (runOps acceptAll s2 ops).2.buf := e1
  rw [hbuf1, hbuf2] at e1'
  simpa using e1'

/-- A fixed write sequence used to instantiate C3. -/
def c3wops : List SjsonOp :=
  [SjsonOp.initArray, SjsonOp.addIntToArray 12, SjsonOp.endOp]

/-- C3, instantiated with buffer sizes 2 and 64. -/
theorem c3_buffer_size_independence_witness :
    (runOps acceptAll 2 c3wops).1 = (runOps acceptAll 64 c3wops).1 ∧
    outOf (runOps acceptAll 2 c3wops).2 = outOf (runOps acceptAll 64 c3wops).2 ∧
    ((runOps acceptAll 2 c3wops).2.finalized = true →
      (runOps acceptAll 2 c3wops).2.sent = (runOps acceptAll 64 c3wops).2.sent) :=
  c3_buffer_size_independence 2 64 c3wops (by decide) (by decide) (by decide)

/-- C4 as literally stated is false on its `used = 0` half: when the sink
rejects the finalizing flush, `sjson_Close` still marks the context
finalized but the closing bytes stay in the buffer (`used = 2` here). -/
theorem c4_used_nonzero_counterexample :
    (runOps (fun _ => false) 4
      [SjsonOp.initObject, SjsonOp.closeOp]).2.finalized = true ∧
    (runOps (fun _ => false) 4
      [SjsonOp.initObject, SjsonOp.closeOp]).2.buf ≠ [] := by
  decide

/-- C4 (amended to its `depth` half): in every context reachable from the
zeroed initial context by any operation sequence under any sink behavior,
`finalized = true` forces `depth = 0`. -/
theorem c4_finalized_zero_depth (sink : Nat → Bool) (size : Nat)
    (ops : List SjsonOp)
    (h : (runOps sink size ops).2.finalized = true) :
    (runOps sink size ops).2.depth = 0 :=
  runFrom_FinOk sink size ops (mkInitial size) (finok_of_false rfl) h

/-- C4, instantiated: a completed object run is finalized at depth 0. -/
theorem c4_finalized_zero_depth_witness :
    (runOps acceptAll 4 [SjsonOp.initObject, SjsonOp.closeOp]).2.depth = 0 :=
  c4_finalized_zero_depth acceptAll 4 [SjsonOp.initObject, SjsonOp.closeOp]
    (by decide)

/-- C5: on a non-finalized context with an open collection, if the `write`
of the closing token fails then `sjson_Close` propagates that status and
restores `depth` and the closer stack, so the close can be retried. -/
theorem c5_close_rollback (sink : Nat → Bool) (ctx : SjsonCtx)
    (hfin : ctx.finalized = false) (hdep : ctx.depth ≠ 0)
    (hw : (write sink { ctx with depth := ctx.depth - 1 }
        [ctx.depthStack.getD (ctx.depth - 1) 0]).1 ≠ SjsonStatus.ok) :
    (sjson_Close sink ctx).1 =
      (write sink { ctx with depth := ctx.depth - 1 }
        [ctx.depthStack.getD (ctx.depth - 1) 0]).1 ∧
    (sjson_Close sink ctx).2.depth = ctx.depth ∧
    (sjson_Close sink ctx).2.depthStack = ctx.depthStack := by
  unfold sjson_Close
  rw [if_neg (by simp [hfin, hdep])]
  simp only []
  rw [if_pos hw]
  refine ⟨rfl, ?_, ?_⟩
  · have hd := write_depth sink { ctx with depth := ctx.depth - 1 }
      [ctx.depthStack.getD (ctx.depth - 1) 0]
    show (write sink { ctx with depth := ctx.depth - 1 }
      [ctx.depthStack.getD (ctx.depth - 1) 0]).2.depth + 1 = ctx.depth
    rw [hd]
    show ctx.depth - 1 + 1 = ctx.depth
    omega
  · exact (frame_fields (write_frame sink { ctx with depth := ctx.depth - 1 }
      [ctx.depthStack.getD (ctx.depth - 1) 0])).2.1

/-- A one-deep context whose buffer is full. -/
def c5ctx : SjsonCtx :=
  { bufferSize := 1, buf := [123],
    depthStack := (List.replicate 9 0).set 0 125, depth := 1,
    maxDepth := 8, needsComma := List.replicate 9 false, finalized := false,
    sent := [], flushCount := 0 }

/-- C5, instantiated: a rejecting sink makes the closing write fail, and
the depth and stack are restored. -/
theorem c5_close_rollback_witness :
    (sjson_Close (fun _ => false) c5ctx).1 =
      (write (fun _ => false) { c5ctx with depth := c5ctx.depth - 1 }
        [c5ctx.depthStack.getD (c5ctx.depth - 1) 0]).1 ∧
    (sjson_Close (fun _ => false) c5ctx).2.depth = c5ctx.depth ∧
    (sjson_Close (fun _ => false) c5ctx).2.depthStack = c5ctx.depthStack :=
  c5_close_rollback (fun _ => false) c5ctx rfl (by decide) (by decide)

/-- Opening the root object and then 7 nested objects: 8 = `SJSON_MAX_DEPTH`
collections open. -/
def c6ops : List SjsonOp :=
  SjsonOp.initObject ::
    (List.range 7).map (fun i => SjsonOp.addObjectToObject [107, 48 + i])

/-- The context after the 8 successful opens. -/
def c6deep : SjsonCtx := (runOps acceptAll 512 c6ops).2

/-- C6: whenever the depth bound is reached, an open fails with `maxDepth`
and returns the context exactly unchanged (first conjunct, for any sink and
context passing the object-state check); concretely, the root plus 7 nested
opens all succeed reaching depth `SJSON_MAX_DEPTH = 8`, the 9th open fails
with `maxDepth` leaving the state identical, and a scalar member can still
be added at the existing depth. -/
theorem c6_max_depth_guard :
    (∀ (sink : Nat → Bool) (ctx : SjsonCtx) (key : List Nat),
        checkObjectState ctx = SjsonStatus.ok → ctx.depth ≥ ctx.maxDepth →
        sjson_AddObjectToObject sink ctx key = (SjsonStatus.maxDepth, ctx)) ∧
    (runOps acceptAll 512 c6ops).1 = List.replicate 8 SjsonStatus.ok ∧
    c6deep.depth = SJSON_MAX_DEPTH ∧
    sjson_AddObjectToObject acceptAll c6deep [107, 55] =
      (SjsonStatus.maxDepth, c6deep) ∧
    (sjson_AddStringToObject acceptAll c6deep [115] [118]).1 =
      SjsonStatus.ok := by
  constructor
  · intro sink ctx key hok hd
    unfold sjson_AddObjectToObject
    simp only []
    rw [if_neg (not_ne_ok hok), if_pos hd]
  · refine ⟨by decide, by decide, by decide, by decide⟩

/-- C6's guard, instantiated at the depth-8 context. -/
theorem c6_max_depth_guard_witness :
    sjson_AddObjectToObject acceptAll c6deep [110] =
      (SjsonStatus.maxDepth, c6deep) :=
  c6_max_depth_guard.1 acceptAll c6deep [110] (by decide) (by decide)

/-- C9 as literally stated is false: `sjson_AddStringToObject` (like every
key-taking writer except `sjson_AddArrayToObject`) performs no key
validation, so a zero-length key is accepted. -/
theorem c9_zero_key_accepted :
    (sjson_AddStringToObject acceptAll
      (runOps acceptAll 64 [SjsonOp.initObject]).2 [] [118]).1 =
      SjsonStatus.ok := by
  decide

/-- C9 (amended): only `sjson_AddArrayToObject` validates its key — a
zero-length key, or one longer than 128 bytes, yields `invalidParam` with
the context unchanged, for every context and sink. -/
theorem c9_addarray_key_validation :
    (∀ (sink : Nat → Bool) (ctx : SjsonCtx),
        sjson_AddArrayToObject sink ctx [] = (SjsonStatus.invalidParam, ctx)) ∧
    (∀ (sink : Nat → Bool) (ctx : SjsonCtx) (key : List Nat),
        key.length > 128 →
        sjson_AddArrayToObject sink ctx key = (SjsonStatus.invalidParam, ctx)) := by
  constructor
  · intro sink ctx
    rfl
  · intro sink ctx key h
    unfold sjson_AddArrayToObject
    rw [if_pos (by simp [h])]

/-- C9's long-key guard, instantiated at a 129-byte key. -/
theorem c9_addarray_key_validation_witness :
    sjson_AddArrayToObject acceptAll (mkInitial 8) (List.replicate 129 107) =
      (SjsonStatus.invalidParam, mkInitial 8) :=
  c9_addarray_key_validation.2 acceptAll (mkInitial 8)
    (List.replicate 129 107) (by simp)

/-- C10: `sjson_AddNumberToObject` is definitionally the single statement
`return sjson_AddFloatToObject(ctx, key, (float)value);` — same status and
same resulting context, for every context, key, value and sink. -/
theorem c10_addnumber_delegates (narrow : CDouble → CFloat)
    (renderFloat : CFloat → List Nat) (sink : Nat → Bool) (ctx : SjsonCtx)
    (key : List Nat) (value : CDouble) :
    sjson_AddNumberToObject narrow renderFloat sink ctx key value =
      sjson_AddFloatToObject sink ctx key (renderFloat (narrow value)) := rfl

end StreamJson
